import Mathlib

/-
  Verification of the `SubqueryToJoinRule` optimizer strategy
  (src/lib/optimizer/strategy/subquery_to_join_rule.cpp).

  The rule rewrites `(NOT) IN`, `(NOT) EXISTS` and scalar-comparison-with-subquery
  predicate nodes of a logical query plan (LQP) into semi and anti joins.

  The LQP and expression algebra is embedded shallowly as a family of mutually
  inductive trees.  The C++ plan is a DAG of shared_ptr nodes; the tree embedding
  identifies structurally equal subtrees, which corresponds to running the rule on
  plans without node sharing (each node has a single consumer).  Machine integers
  (ColumnID, ParameterID) are modelled as Nat; C++ `operator==` on expressions is
  deep structural equality, modelled as `=` (made decidable below).  The `Assert`
  macro (enabled in release builds) is modelled as an explicit failure outcome
  (`Except.error`); `DebugAssert` (compiled out of release builds) as a no-op.

  Expression lists and parameter-binding lists that occur as node fields are
  stored with the bespoke list types `ExprList` and `ParamList` (isomorphic to
  `List Expression` and `List (Nat × Expression)` through `toList`/`ofList`);
  this keeps the inductive family free of nested occurrences so that structural
  recursion -- and hence kernel evaluation -- is available.  All algorithmic
  definitions work on ordinary lists obtained through `toList`.
-/

/-- PredicateCondition, restricted to the six binary comparison conditions that
    joins support (subquery_to_join_rule.cpp lines 142-147 and 277-284).  The
    remaining conditions (In, NotIn, Between, Like, IsNull, ...) are represented
    structurally by the expression constructors `inExpr` and `isNullExpr`. -/
inductive CompCond where
  | equals
  | notEquals
  | lessThan
  | lessThanEquals
  | greaterThan
  | greaterThanEquals
deriving DecidableEq, Repr

/-- JoinMode from types.hpp (all modes the rule inspects or emits). -/
inductive JoinMode where
  | inner
  | cross
  | leftOuter
  | rightOuter
  | fullOuter
  | semi
  | antiNullAsFalse
  | antiNullAsTrue
deriving DecidableEq, Repr

mutual

/-- AbstractExpression trees.  `comparison` is a BinaryPredicateExpression with one
    of the six comparison conditions, `inExpr` an InExpression, `isNullExpr` stands
    for the remaining AbstractPredicateExpression shapes (predicate conditions that
    fall into the `default` branches of the switches at lines 120-170 and 277-287),
    `existsExpr` is an ExistsExpression, and `lqpSubquery` an LQPSubqueryExpression
    carrying its embedded plan and its (ParameterID, outer expression) bindings.
    The arguments of `lqpSubquery` in the sense of AbstractExpression::arguments
    (walked by visit_expression) are the parameter expressions, not the plan. -/
inductive Expression where
  | column (id : Nat)
  | value (v : Int)
  | correlatedParameter (pid : Nat)
  | comparison (cond : CompCond) (lhs rhs : Expression)
  | inExpr (negated : Bool) (val set : Expression)
  | isNullExpr (negated : Bool) (operand : Expression)
  | existsExpr (negated : Bool) (sub : Expression)
  | lqpSubquery (lqp : LQP) (params : ParamList)

/-- Parameter-binding list of an LQPSubqueryExpression: (ParameterID, outer
    expression) pairs. -/
inductive ParamList where
  | nil
  | cons (pid : Nat) (outer : Expression) (rest : ParamList)

/-- Expression list stored in a plan node. -/
inductive ExprList where
  | nil
  | cons (head : Expression) (rest : ExprList)

/-- AbstractLQPNode trees covering the node types the rule distinguishes
    (calculate_safe_recursion_sides and copy_and_adapt_lqp).  `storedTable` is the
    recursion-terminal leaf (the `default` branches of both switches); its columns
    are the column ids it produces.  An AggregateNode stores
    `node_expressions = groupBy ++ aggs` with
    `aggregate_expressions_begin_idx = groupBy.length`. -/
inductive LQP where
  | predicate (pred : Expression) (input : LQP)
  | join (mode : JoinMode) (preds : ExprList) (l r : LQP)
  | aggregate (groupBy aggs : ExprList) (input : LQP)
  | projection (exprs : ExprList) (input : LQP)
  | aliasNode (exprs : ExprList) (aliases : List String) (input : LQP)
  | sort (exprs : ExprList) (descending : List Bool) (input : LQP)
  | validate (input : LQP)
  | storedTable (tname : String) (columns : List Nat)

end

mutual

/-- Structural equality of expressions (C++ AbstractExpression::operator==). -/
def beqE : Expression → Expression → Bool
  | .column a, .column b => a == b
  | .value a, .value b => a == b
  | .correlatedParameter a, .correlatedParameter b => a == b
  | .comparison c1 l1 r1, .comparison c2 l2 r2 => c1 == c2 && (beqE l1 l2 && beqE r1 r2)
  | .inExpr n1 v1 s1, .inExpr n2 v2 s2 => n1 == n2 && (beqE v1 v2 && beqE s1 s2)
  | .isNullExpr n1 o1, .isNullExpr n2 o2 => n1 == n2 && beqE o1 o2
  | .existsExpr n1 s1, .existsExpr n2 s2 => n1 == n2 && beqE s1 s2
  | .lqpSubquery p1 ps1, .lqpSubquery p2 ps2 => beqL p1 p2 && beqP ps1 ps2
  | _, _ => false
termination_by structural e _ => e

/-- Structural equality of parameter-binding lists. -/
def beqP : ParamList → ParamList → Bool
  | .nil, .nil => true
  | .cons i1 e1 r1, .cons i2 e2 r2 => i1 == i2 && (beqE e1 e2 && beqP r1 r2)
  | _, _ => false
termination_by structural e _ => e

/-- Structural equality of expression lists. -/
def beqEs : ExprList → ExprList → Bool
  | .nil, .nil => true
  | .cons e1 r1, .cons e2 r2 => beqE e1 e2 && beqEs r1 r2
  | _, _ => false
termination_by structural e _ => e

/-- Structural equality of plans. -/
def beqL : LQP → LQP → Bool
  | .predicate p1 i1, .predicate p2 i2 => beqE p1 p2 && beqL i1 i2
  | .join m1 ps1 l1 r1, .join m2 ps2 l2 r2 =>
      m1 == m2 && (beqEs ps1 ps2 && (beqL l1 l2 && beqL r1 r2))
  | .aggregate g1 a1 i1, .aggregate g2 a2 i2 => beqEs g1 g2 && (beqEs a1 a2 && beqL i1 i2)
  | .projection e1 i1, .projection e2 i2 => beqEs e1 e2 && beqL i1 i2
  | .aliasNode e1 al1 i1, .aliasNode e2 al2 i2 => beqEs e1 e2 && (al1 == al2 && beqL i1 i2)
  | .sort e1 d1 i1, .sort e2 d2 i2 => beqEs e1 e2 && (d1 == d2 && beqL i1 i2)
  | .validate i1, .validate i2 => beqL i1 i2
  | .storedTable n1 c1, .storedTable n2 c2 => n1 == n2 && c1 == c2
  | _, _ => false
termination_by structural e _ => e

end

set_option maxHeartbeats 2000000 in
/-- Equality bootstrapping: the four structural-equality functions decide
    propositional equality.  Proved by strong induction on the size of the first
    argument. -/
theorem beq_iff_eq_all : ∀ k : Nat,
    (∀ a b : Expression, sizeOf a ≤ k → (beqE a b = true ↔ a = b)) ∧
    (∀ a b : ParamList, sizeOf a ≤ k → (beqP a b = true ↔ a = b)) ∧
    (∀ a b : ExprList, sizeOf a ≤ k → (beqEs a b = true ↔ a = b)) ∧
    (∀ a b : LQP, sizeOf a ≤ k → (beqL a b = true ↔ a = b)) := by
  intro k
  induction k using Nat.strong_induction_on with
  | _ k ih =>
    have ihE : ∀ a b : Expression, sizeOf a < k → (beqE a b = true ↔ a = b) :=
      fun a b h => (ih (sizeOf a) h).1 a b (le_refl _)
    have ihP : ∀ a b : ParamList, sizeOf a < k → (beqP a b = true ↔ a = b) :=
      fun a b h => (ih (sizeOf a) h).2.1 a b (le_refl _)
    have ihEs : ∀ a b : ExprList, sizeOf a < k → (beqEs a b = true ↔ a = b) :=
      fun a b h => (ih (sizeOf a) h).2.2.1 a b (le_refl _)
    have ihL : ∀ a b : LQP, sizeOf a < k → (beqL a b = true ↔ a = b) :=
      fun a b h => (ih (sizeOf a) h).2.2.2 a b (le_refl _)
    refine ⟨?_, ?_, ?_, ?_⟩
    · intro a b hs
      cases a <;> cases b <;> simp only [beqE, Bool.and_eq_true, beq_iff_eq] <;>
        simp_all only [Expression.column.injEq, Expression.value.injEq,
          Expression.correlatedParameter.injEq, Expression.comparison.injEq,
          Expression.inExpr.injEq, Expression.isNullExpr.injEq, Expression.existsExpr.injEq,
          Expression.lqpSubquery.injEq, iff_true, true_iff, false_iff, reduceCtorEq,
          not_false_iff, Bool.false_eq_true]
      case comparison.comparison c1 l1 r1 c2 l2 r2 =>
        rw [ihE l1 l2 (by simp at hs; omega), ihE r1 r2 (by simp at hs; omega)]
      case inExpr.inExpr n1 v1 s1 n2 v2 s2 =>
        rw [ihE v1 v2 (by simp at hs; omega), ihE s1 s2 (by simp at hs; omega)]
      case isNullExpr.isNullExpr n1 o1 n2 o2 =>
        rw [ihE o1 o2 (by simp at hs; omega)]
      case existsExpr.existsExpr n1 s1 n2 s2 =>
        rw [ihE s1 s2 (by simp at hs; omega)]
      case lqpSubquery.lqpSubquery p1 ps1 p2 ps2 =>
        rw [ihL p1 p2 (by simp at hs; omega), ihP ps1 ps2 (by simp at hs; omega)]
    · intro a b hs
      cases a <;> cases b <;> simp only [beqP, Bool.and_eq_true, beq_iff_eq] <;>
        simp_all only [ParamList.cons.injEq, iff_true, true_iff, false_iff, reduceCtorEq,
          not_false_iff, Bool.false_eq_true]
      case cons.cons i1 e1 r1 i2 e2 r2 =>
        rw [ihE e1 e2 (by simp at hs; omega), ihP r1 r2 (by simp at hs; omega)]
    · intro a b hs
      cases a <;> cases b <;> simp only [beqEs, Bool.and_eq_true, beq_iff_eq] <;>
        simp_all only [ExprList.cons.injEq, iff_true, true_iff, false_iff, reduceCtorEq,
          not_false_iff, Bool.false_eq_true]
      case cons.cons e1 r1 e2 r2 =>
        rw [ihE e1 e2 (by simp at hs; omega), ihEs r1 r2 (by simp at hs; omega)]
    · intro a b hs
      cases a <;> cases b <;> simp only [beqL, Bool.and_eq_true, beq_iff_eq] <;>
        simp_all only [LQP.predicate.injEq, LQP.join.injEq, LQP.aggregate.injEq,
          LQP.projection.injEq, LQP.aliasNode.injEq, LQP.sort.injEq, LQP.validate.injEq,
          LQP.storedTable.injEq, iff_true, true_iff, false_iff, reduceCtorEq,
          not_false_iff, Bool.false_eq_true]
      case predicate.predicate p1 i1 p2 i2 =>
        rw [ihE p1 p2 (by simp at hs; omega), ihL i1 i2 (by simp at hs; omega)]
      case join.join m1 ps1 l1 r1 m2 ps2 l2 r2 =>
        rw [ihEs ps1 ps2 (by simp at hs; omega), ihL l1 l2 (by simp at hs; omega),
          ihL r1 r2 (by simp at hs; omega)]
      case aggregate.aggregate g1 a1 i1 g2 a2 i2 =>
        rw [ihEs g1 g2 (by simp at hs; omega), ihEs a1 a2 (by simp at hs; omega),
          ihL i1 i2 (by simp at hs; omega)]
      case projection.projection e1 i1 e2 i2 =>
        rw [ihEs e1 e2 (by simp at hs; omega), ihL i1 i2 (by simp at hs; omega)]
      case aliasNode.aliasNode e1 al1 i1 e2 al2 i2 =>
        rw [ihEs e1 e2 (by simp at hs; omega), ihL i1 i2 (by simp at hs; omega)]
      case sort.sort e1 d1 i1 e2 d2 i2 =>
        rw [ihEs e1 e2 (by simp at hs; omega), ihL i1 i2 (by simp at hs; omega)]
      case validate.validate i1 i2 =>
        rw [ihL i1 i2 (by simp at hs; omega)]

instance : DecidableEq Expression := fun a b =>
  decidable_of_iff (beqE a b = true) ((beq_iff_eq_all (sizeOf a)).1 a b (le_refl _))

instance : DecidableEq ParamList := fun a b =>
  decidable_of_iff (beqP a b = true) ((beq_iff_eq_all (sizeOf a)).2.1 a b (le_refl _))

instance : DecidableEq ExprList := fun a b =>
  decidable_of_iff (beqEs a b = true) ((beq_iff_eq_all (sizeOf a)).2.2.1 a b (le_refl _))

instance : DecidableEq LQP := fun a b =>
  decidable_of_iff (beqL a b = true) ((beq_iff_eq_all (sizeOf a)).2.2.2 a b (le_refl _))

/-- View of an ExprList as an ordinary list. -/
def ExprList.toList : ExprList → List Expression
  | .nil => []
  | .cons e rest => e :: rest.toList

/-- Building an ExprList from an ordinary list. -/
def ExprList.ofList : List Expression → ExprList
  | [] => .nil
  | e :: rest => .cons e (ExprList.ofList rest)

/-- View of a ParamList as an ordinary association list. -/
def ParamList.toList : ParamList → List (Nat × Expression)
  | .nil => []
  | .cons pid outer rest => (pid, outer) :: rest.toList

theorem ExprList.toList_ofList (l : List Expression) : (ExprList.ofList l).toList = l := by
  induction l with
  | nil => rfl
  | cons e rest ih => simp [ExprList.ofList, ExprList.toList, ih]

theorem ExprList.ofList_toList : ∀ l : ExprList, ExprList.ofList l.toList = l
  | .nil => rfl
  | .cons e rest => by simp [ExprList.ofList, ExprList.toList, ExprList.ofList_toList rest]

example : beqE (.column 3) (.column 3) = true := by rfl

example : (Expression.comparison .equals (.column 3) (.value 2)) ≠
    (Expression.comparison .equals (.column 4) (.value 2)) := by decide

/-- Modelled from the spec (section 6): `flip_predicate_condition(op)` returns the
    mirrored comparison. -/
def flip_predicate_condition : CompCond → CompCond
  | .equals => .equals
  | .notEquals => .notEquals
  | .lessThan => .greaterThan
  | .lessThanEquals => .greaterThanEquals
  | .greaterThan => .lessThan
  | .greaterThanEquals => .lessThanEquals

/-- Modelled from the spec (section 3): the set of node expressions each node
    carries (filter predicate, join predicates, grouping/aggregate lists,
    projection list, sort keys). -/
def node_expressions : LQP → List Expression
  | .predicate p _ => [p]
  | .join _ preds _ _ => preds.toList
  | .aggregate g a _ => g.toList ++ a.toList
  | .projection e _ => e.toList
  | .aliasNode e _ _ => e.toList
  | .sort e _ _ => e.toList
  | .validate _ => []
  | .storedTable _ _ => []

/-- Modelled from the spec (sections 3 and 6): `column_expressions()` -- the column
    expressions a node produces.  A stored table produces its columns, predicate,
    sort and validate nodes forward their input, projections and aliases produce
    their expression list, an aggregate produces group-by columns followed by
    aggregates, and joins produce the left columns followed by the right columns,
    except that semi and anti joins do not preserve the right side. -/
def column_expressions : LQP → List Expression
  | .predicate _ i => column_expressions i
  | .join mode _ l r =>
    match mode with
    | .semi | .antiNullAsFalse | .antiNullAsTrue => column_expressions l
    | _ => column_expressions l ++ column_expressions r
  | .aggregate g a _ => g.toList ++ a.toList
  | .projection e _ => e.toList
  | .aliasNode e _ _ => e.toList
  | .sort _ _ i => column_expressions i
  | .validate i => column_expressions i
  | .storedTable _ cols => cols.map Expression.column

/-- Modelled from the spec (sections 3 and 6): `find_column_id(expr)` -- does the
    expression resolve to a column this node produces?  (The rule only ever uses
    the optional result for its truth value.) -/
def find_column_id (n : LQP) (e : Expression) : Bool :=
  decide (e ∈ column_expressions n)

/-- Lookup in the parameter mapping (std::map::find; only the first insertion per
    key is kept by emplace, and ordering of std::map is irrelevant to lookups). -/
def parameter_mapping_lookup (m : List (Nat × Expression)) (pid : Nat) : Option Expression :=
  (m.find? (fun pr => pr.1 == pid)).map (fun pr => pr.2)

/-- The parameter mapping built in apply_to (lines 515-519): for each parameter
    index, emplace (ParameterID, parameter_expression); emplace keeps the first
    insertion of a key. -/
def build_parameter_mapping (params : List (Nat × Expression)) : List (Nat × Expression) :=
  params.foldl
    (fun acc pr => if (acc.find? (fun q => q.1 == pr.1)).isSome then acc else acc ++ [pr]) []

mutual

/-- The expression walk inside uses_correlated_parameters (lines 212-227):
    visit_expression looking for a CorrelatedParameterExpression whose id is in
    the parameter mapping.  The arguments of an LQPSubqueryExpression are its
    parameter expressions (the embedded plan is not an argument). -/
def expression_uses_correlated_parameter (m : List (Nat × Expression)) : Expression → Bool
  | .column _ => false
  | .value _ => false
  | .correlatedParameter pid => (parameter_mapping_lookup m pid).isSome
  | .comparison _ l r =>
      expression_uses_correlated_parameter m l || expression_uses_correlated_parameter m r
  | .inExpr _ v s =>
      expression_uses_correlated_parameter m v || expression_uses_correlated_parameter m s
  | .isNullExpr _ o => expression_uses_correlated_parameter m o
  | .existsExpr _ s => expression_uses_correlated_parameter m s
  | .lqpSubquery _ ps => param_expressions_use_correlated_parameter m ps
termination_by structural e => e

/-- Walk of the parameter expressions of a nested LQPSubqueryExpression. -/
def param_expressions_use_correlated_parameter (m : List (Nat × Expression)) : ParamList → Bool
  | .nil => false
  | .cons _ outer rest =>
      expression_uses_correlated_parameter m outer ||
        param_expressions_use_correlated_parameter m rest
termination_by structural e => e

end

/-- SubqueryToJoinRule::uses_correlated_parameters (lines 208-235): does any node
    expression contain a correlated parameter bound in the mapping? -/
def uses_correlated_parameters (n : LQP) (m : List (Nat × Expression)) : Bool :=
  (node_expressions n).any (expression_uses_correlated_parameter m)

/-- Is the node a PredicateNode (LQPNodeType::Predicate)? -/
def is_predicate_node : LQP → Bool
  | .predicate _ _ => true
  | _ => false

/-- The visit_lqp traversal inside assess_correlated_parameter_usage (lines
    242-257), with the (optimizable, count) state threaded through a depth-first
    visit.  The C++ visit_lqp uses a queue, but once `optimizable` is false every
    remaining visit returns DoNotVisitInputs immediately, so the final flag is
    traversal-order independent, and the count is only consumed by apply_to when
    the flag stayed true, in which case every node was visited exactly once in
    either order (the embedded plan is a tree). -/
def assess_visit (m : List (Nat × Expression)) : LQP → Bool → Nat → Bool × Nat
  | _, false, cnt => (false, cnt)
  | .predicate p i, true, cnt =>
      assess_visit m i true
        (if uses_correlated_parameters (.predicate p i) m then cnt + 1 else cnt)
  | .join mode ps l r, true, cnt =>
      if uses_correlated_parameters (.join mode ps l r) m then (false, cnt)
      else
        let s := assess_visit m l true cnt
        assess_visit m r s.1 s.2
  | .aggregate g a i, true, cnt =>
      if uses_correlated_parameters (.aggregate g a i) m then (false, cnt)
      else assess_visit m i true cnt
  | .projection e i, true, cnt =>
      if uses_correlated_parameters (.projection e i) m then (false, cnt)
      else assess_visit m i true cnt
  | .aliasNode e al i, true, cnt =>
      if uses_correlated_parameters (.aliasNode e al i) m then (false, cnt)
      else assess_visit m i true cnt
  | .sort e d i, true, cnt =>
      if uses_correlated_parameters (.sort e d i) m then (false, cnt)
      else assess_visit m i true cnt
  | .validate i, true, cnt =>
      if uses_correlated_parameters (.validate i) m then (false, cnt)
      else assess_visit m i true cnt
  | .storedTable tname cols, true, cnt =>
      if uses_correlated_parameters (.storedTable tname cols) m then (false, cnt)
      else (true, cnt)
termination_by structural n _ _ => n

/-- SubqueryToJoinRule::assess_correlated_parameter_usage (lines 237-260): returns
    (not_optimizable, number of correlated PredicateNodes). -/
def assess_correlated_parameter_usage (lqp : LQP) (m : List (Nat × Expression)) : Bool × Nat :=
  let r := assess_visit m lqp true 0
  (!r.1, r.2)

/-- A BinaryPredicateExpression as built by the rule for join predicates. -/
structure BinaryPred where
  cond : CompCond
  leftOperand : Expression
  rightOperand : Expression
deriving DecidableEq

/-- The expression a BinaryPred denotes. -/
def BinaryPred.toExpression (p : BinaryPred) : Expression :=
  .comparison p.cond p.leftOperand p.rightOperand

/-- The operand analysis of try_to_extract_join_predicate (lines 298-313): one
    side must be a correlated parameter (the left side is tested first); returns
    (parameter id, condition flipped if the parameter was on the right, the other
    operand). -/
def extract_correlated_side (cond0 : CompCond) (left_side right_side : Expression) :
    Option (Nat × CompCond × Expression) :=
  match left_side with
  | .correlatedParameter pid => some (pid, cond0, right_side)
  | _ =>
    match right_side with
    | .correlatedParameter pid => some (pid, flip_predicate_condition cond0, left_side)
    | _ => none


/-- SubqueryToJoinRule::try_to_extract_join_predicate (lines 262-329).  The
    predicate must be a binary comparison (the six conditions); below an aggregate
    only equality is accepted; one operand must be a correlated parameter (left
    first), the other must resolve to a column of the node below; the parameter
    must be bound in the mapping.  Returns the synthesized join predicate
    `mapping[id] op column`, the condition flipped when the parameter was on the
    right. -/
def try_to_extract_join_predicate (predicate_node : LQP) (m : List (Nat × Expression))
    (is_below_aggregate : Bool) : Option BinaryPred :=
  match predicate_node with
  | .predicate p _ =>
    match p with
    | .comparison cond0 left_side right_side =>
      if is_below_aggregate && cond0 != CompCond.equals then none
      else
        match extract_correlated_side cond0 left_side right_side with
        | none => none
        | some (pid, cond1, right_operand) =>
          if !(find_column_id predicate_node right_operand) then none
          else
            match parameter_mapping_lookup m pid with
            | none => none
            | some left_operand => some ⟨cond1, left_operand, right_operand⟩
    | _ => none
  | _ => none

/-- calculate_safe_recursion_sides (lines 36-69): which inputs may predicates be
    pulled from. -/
def calculate_safe_recursion_sides : LQP → Bool × Bool
  | .join mode _ _ _ =>
    match mode with
    | .inner | .cross => (true, true)
    | .leftOuter | .semi | .antiNullAsFalse | .antiNullAsTrue => (true, false)
    | .rightOuter => (false, true)
    | .fullOuter => (false, false)
  | .predicate _ _ => (true, false)
  | .aggregate _ _ _ => (true, false)
  | .aliasNode _ _ _ => (true, false)
  | .projection _ _ => (true, false)
  | .sort _ _ _ => (true, false)
  | .validate _ => (true, false)
  | .storedTable _ _ => (false, false)

/-- find_pullable_predicate_nodes_recursive (lines 71-98): record each predicate
    node for which try_to_extract_join_predicate succeeds, then recurse along the
    safe recursion sides; aggregate nodes set is_below_aggregate for their
    subtrees.  The per-constructor recursion here follows exactly the sides given
    by calculate_safe_recursion_sides. -/
def find_pullable_predicate_nodes_recursive (m : List (Nat × Expression)) (b : Bool) :
    LQP → List (LQP × BinaryPred)
  | .predicate p i =>
      (match try_to_extract_join_predicate (.predicate p i) m b with
       | some jp => [((.predicate p i : LQP), jp)]
       | none => []) ++ find_pullable_predicate_nodes_recursive m b i
  | .join mode _ l r =>
      (match mode with
       | .inner | .cross =>
           find_pullable_predicate_nodes_recursive m b l ++
             find_pullable_predicate_nodes_recursive m b r
       | .leftOuter | .semi | .antiNullAsFalse | .antiNullAsTrue =>
           find_pullable_predicate_nodes_recursive m b l
       | .rightOuter => find_pullable_predicate_nodes_recursive m b r
       | .fullOuter => [])
  | .aggregate _ _ i => find_pullable_predicate_nodes_recursive m true i
  | .projection _ i => find_pullable_predicate_nodes_recursive m b i
  | .aliasNode _ _ i => find_pullable_predicate_nodes_recursive m b i
  | .sort _ _ i => find_pullable_predicate_nodes_recursive m b i
  | .validate i => find_pullable_predicate_nodes_recursive m b i
  | .storedTable _ _ => []
termination_by structural n => n

/-- SubqueryToJoinRule::find_pullable_predicate_nodes (lines 388-396). -/
def find_pullable_predicate_nodes (n : LQP) (m : List (Nat × Expression)) :
    List (LQP × BinaryPred) :=
  find_pullable_predicate_nodes_recursive m false n

/-- Modelled from the spec (section 4.4): AbstractExpression::as_column_name, used
    to generate aliases for expressions newly added to an AliasNode ("an alias
    equal to the expression's canonical column name").  The exact rendering is
    irrelevant to the rule; only list lengths and positions matter. -/
def expression_as_column_name : Expression → String
  | .column id => "Column#" ++ toString id
  | .value v => toString v
  | .correlatedParameter pid => "Parameter[" ++ toString pid ++ "]"
  | .comparison _ l r =>
      expression_as_column_name l ++ " cmp " ++ expression_as_column_name r
  | .inExpr negated v s =>
      expression_as_column_name v ++ (if negated then " NOT IN " else " IN ") ++
        expression_as_column_name s
  | .isNullExpr negated o =>
      expression_as_column_name o ++ (if negated then " IS NOT NULL" else " IS NULL")
  | .existsExpr negated s =>
      (if negated then "NOT EXISTS" else "EXISTS") ++ expression_as_column_name s
  | .lqpSubquery _ _ => "SUBQUERY"
termination_by structural e => e

/-- SubqueryToJoinRule::adapt_aggregate_node (lines 331-348): append to the
    group-by list every required column expression that is not among the original
    group-by expressions (membership is tested against the original set only, so
    required columns are appended in their given order); the aggregate expressions
    are unchanged.  Returns (group-by list, aggregate list). -/
def adapt_aggregate_node (group_by aggs : List Expression)
    (required_column_expressions : List Expression) : List Expression × List Expression :=
  (required_column_expressions.foldl
      (fun acc e => if e ∈ group_by then acc else acc ++ [e]) group_by,
    aggs)

/-- SubqueryToJoinRule::adapt_alias_node (lines 350-368): as adapt_projection_node,
    also generating an alias for each appended expression. -/
def adapt_alias_node (exprs : List Expression) (aliases : List String)
    (required_column_expressions : List Expression) : List Expression × List String :=
  required_column_expressions.foldl
    (fun acc e =>
      if e ∈ exprs then acc else (acc.1 ++ [e], acc.2 ++ [expression_as_column_name e]))
    (exprs, aliases)

/-- SubqueryToJoinRule::adapt_projection_node (lines 370-386): append every
    required column expression not already among the node expressions; duplicates
    inside the original expressions are preserved. -/
def adapt_projection_node (exprs : List Expression)
    (required_column_expressions : List Expression) : List Expression :=
  required_column_expressions.foldl
    (fun acc e => if e ∈ exprs then acc else acc ++ [e]) exprs

/-- SubqueryToJoinRule::copy_and_adapt_lqp (lines 398-484): recurse along the safe
    recursion sides, remove the pullable correlated predicate nodes, collect the
    column expressions their join predicates require (deduplicated by expression
    equality at each removal against the accumulated list; the lists of the two
    sides of an inner/cross join are concatenated), and copy every other node on
    the way with adapted expression lists.

    The C++ function receives the pullable list and tests membership by node
    pointer (`pair.first == predicate_node`).  In the tree embedding every node
    occurrence is a distinct C++ object, and copy_and_adapt_lqp traverses exactly
    the positions that find_pullable_predicate_nodes_recursive visited with the
    same is_below_aggregate flags, so a visited predicate occurrence is in the
    pullable list exactly when try_to_extract_join_predicate succeeds on it; the
    recorded join predicate is the one try_to_extract_join_predicate returns.
    The flag `b` replays the finder's is_below_aggregate threading. -/
def copy_and_adapt_lqp (m : List (Nat × Expression)) (b : Bool) :
    LQP → LQP × List Expression
  | .predicate p i =>
      let li := copy_and_adapt_lqp m b i
      (match try_to_extract_join_predicate (.predicate p i) m b with
       | none => (.predicate p li.1, li.2)
       | some jp =>
           (li.1,
             if jp.rightOperand ∈ li.2 then li.2 else li.2 ++ [jp.rightOperand]))
  | .aggregate g a i =>
      let li := copy_and_adapt_lqp m true i
      let ga := adapt_aggregate_node g.toList a.toList li.2
      (.aggregate (ExprList.ofList ga.1) (ExprList.ofList ga.2) li.1, li.2)
  | .aliasNode e al i =>
      let li := copy_and_adapt_lqp m b i
      let ea := adapt_alias_node e.toList al li.2
      (.aliasNode (ExprList.ofList ea.1) ea.2 li.1, li.2)
  | .projection e i =>
      let li := copy_and_adapt_lqp m b i
      (.projection (ExprList.ofList (adapt_projection_node e.toList li.2)) li.1, li.2)
  | .sort e d i =>
      let li := copy_and_adapt_lqp m b i
      (.sort e d li.1, li.2)
  | .validate i =>
      let li := copy_and_adapt_lqp m b i
      (.validate li.1, li.2)
  | .join mode preds l r =>
      (match mode with
       | .inner =>
           let ll := copy_and_adapt_lqp m b l
           let rr := copy_and_adapt_lqp m b r
           (.join .inner preds ll.1 rr.1, ll.2 ++ rr.2)
       | .cross =>
           let ll := copy_and_adapt_lqp m b l
           let rr := copy_and_adapt_lqp m b r
           (.join .cross .nil ll.1 rr.1, ll.2 ++ rr.2)
       | .leftOuter | .semi | .antiNullAsFalse | .antiNullAsTrue =>
           let ll := copy_and_adapt_lqp m b l
           (.join mode preds ll.1 r, ll.2)
       | .rightOuter =>
           let rr := copy_and_adapt_lqp m b r
           (.join mode preds l rr.1, rr.2)
       | .fullOuter => (.join mode preds l r, []))
  | .storedTable tname cols => (.storedTable tname cols, [])
termination_by structural n => n

/-- Outcome of SubqueryToJoinRule::extract_input_lqp_info: decline
    (std::nullopt), a failed Assert (which aborts optimization in release
    builds), or the extracted InputLQPInfo (subquery plan, parameter bindings,
    join mode, optional base join predicate). -/
inductive ExtractResult where
  | decline
  | assertionFailure
  | info (subquery_lqp : LQP) (subquery_params : ParamList) (join_mode : JoinMode)
      (base_join_predicate : Option BinaryPred)
deriving DecidableEq

/-- The shared tail of the (NOT) IN and comparison cases of
    extract_input_lqp_info (lines 172-183): the comparison expression must resolve
    to a column of the left input tree, the subquery must produce exactly one
    column (Assert), and the base join predicate is built from the comparison
    expression and that single column. -/
def extract_finish (left_cols : List Expression) (cond : CompCond) (mode : JoinMode)
    (lqp : LQP) (params : ParamList) (comparison_expression : Expression) : ExtractResult :=
  if comparison_expression ∉ left_cols then .decline
  else
    match column_expressions lqp with
    | [c] => .info lqp params mode (some ⟨cond, comparison_expression, c⟩)
    | _ => .assertionFailure

/-- SubqueryToJoinRule::extract_input_lqp_info (lines 102-206), phrased on the
    predicate expression and the column expressions of the node's left input (the
    only part of the input the function reads). -/
def extract_input_lqp_info_core (p : Expression) (left_cols : List Expression) :
    ExtractResult :=
  match p with
  | .inExpr negated v set =>
      (match set with
       | .lqpSubquery lqp params =>
           if negated && !(params = ParamList.nil) then .decline
           else
             extract_finish left_cols .equals
               (if negated then .antiNullAsTrue else .semi) lqp params v
       | _ => .decline)
  | .comparison cond a b =>
      (match a with
       | .lqpSubquery lqp params =>
           extract_finish left_cols (flip_predicate_condition cond) .semi lqp params b
       | _ =>
         match b with
         | .lqpSubquery lqp params => extract_finish left_cols cond .semi lqp params a
         | _ => .decline)
  | .existsExpr negated sub =>
      (match sub with
       | .lqpSubquery lqp params =>
           if params = ParamList.nil then .decline
           else .info lqp params (if negated then .antiNullAsFalse else .semi) none
       | _ => .assertionFailure)
  | _ => .decline

/-- SubqueryToJoinRule::extract_input_lqp_info on a node: only predicate nodes can
    match, and the left input is read only through its column expressions. -/
def extract_input_lqp_info : LQP → ExtractResult
  | .predicate p input => extract_input_lqp_info_core p (column_expressions input)
  | _ => .decline

/-- The std::swap(join_predicates.front(), join_predicates.back()) of apply_to
    (line 552). -/
def swap_front_back (l : List BinaryPred) : List BinaryPred :=
  match l with
  | [] => []
  | x :: rest =>
    match rest.getLast? with
    | none => [x]
    | some z => z :: (rest.dropLast ++ [x])

/-- The join-predicate assembly loop of apply_to (lines 542-555): start from the
    base join predicate (when present), append each pulled join predicate, and on
    the first equality found swap it to the front.  Returns the assembled list and
    the found_equals_predicate flag. -/
def assemble_join_predicates (base : Option BinaryPred) (pulled : List BinaryPred) :
    List BinaryPred × Bool :=
  let init : List BinaryPred × Bool :=
    match base with
    | some bp => ([bp], bp.cond = CompCond.equals)
    | none => ([], false)
  pulled.foldl
    (fun st jp =>
      let appended := st.1 ++ [jp]
      if !st.2 && jp.cond = CompCond.equals then (swap_front_back appended, true)
      else (appended, st.2))
    init

/-- The rewrite decision of SubqueryToJoinRule::apply_to (lines 488-567), phrased
    on the predicate expression and the left input's column expressions.  Returns
    `error` when an Assert fails, `ok none` when the rule declines at this node,
    and otherwise the join mode, the assembled join predicate list and the adapted
    subquery plan of the replacement join node. -/
def apply_to_rewrite_core (p : Expression) (left_cols : List Expression) :
    Except Unit (Option (JoinMode × List Expression × LQP)) :=
  match extract_input_lqp_info_core p left_cols with
  | .assertionFailure => .error ()
  | .decline => .ok none
  | .info lqp params join_mode base =>
      let parameter_mapping := build_parameter_mapping params.toList
      let ac := assess_correlated_parameter_usage lqp parameter_mapping
      if ac.1 then .ok none
      else
        let pullable := find_pullable_predicate_nodes lqp parameter_mapping
        if pullable.length ≠ ac.2 then .ok none
        else
          let pull_up := copy_and_adapt_lqp parameter_mapping false lqp
          let asm := assemble_join_predicates base (pullable.map (fun pr => pr.2))
          if asm.1.isEmpty || !asm.2 then .ok none
          else .ok (some (join_mode, asm.1.map BinaryPred.toExpression, pull_up.1))

/-- The rewrite decision at a node: the replacement join node is
    Join(join_mode, predicates, left input of the predicate node, adapted plan)
    (lqp_replace_node plus set_right_input, lines 562-564). -/
def apply_to_rewrite : LQP → Except Unit (Option (JoinMode × List Expression × LQP × LQP)) :=
  fun n =>
    match n with
    | .predicate p input =>
        (match apply_to_rewrite_core p (column_expressions input) with
         | .error _ => .error ()
         | .ok none => .ok none
         | .ok (some (jm, ps, adapted)) => .ok (some (jm, ps, input, adapted)))
    | _ => .ok none

mutual

/-- Size measure of expressions: counts expression constructors and, inside an
    embedded subquery, its plan nodes (parameter bindings are not counted; the
    rule never recurses into them). -/
def size_expression : Expression → Nat
  | .column _ => 1
  | .value _ => 1
  | .correlatedParameter _ => 1
  | .comparison _ l r => 1 + size_expression l + size_expression r
  | .inExpr _ v s => 1 + size_expression v + size_expression s
  | .isNullExpr _ o => 1 + size_expression o
  | .existsExpr _ s => 1 + size_expression s
  | .lqpSubquery lqp _ => 1 + size_lqp lqp
termination_by structural e => e

/-- Size measure of plans: counts plan nodes, and for predicate nodes also their
    predicate expression (through which apply_to recurses into subquery plans).
    Expression lists of other nodes are not counted, so the plan adapter (which
    only extends such lists) cannot increase the measure. -/
def size_lqp : LQP → Nat
  | .predicate p i => 1 + size_expression p + size_lqp i
  | .join _ _ l r => 1 + size_lqp l + size_lqp r
  | .aggregate _ _ i => 1 + size_lqp i
  | .projection _ i => 1 + size_lqp i
  | .aliasNode _ _ i => 1 + size_lqp i
  | .sort _ _ i => 1 + size_lqp i
  | .validate i => 1 + size_lqp i
  | .storedTable _ _ => 1
termination_by structural e => e

end

/-- The plan adapter never grows the plan: removed predicate nodes shrink it, and
    all other adaptations only extend expression lists, which the measure does not
    count. -/
theorem copy_and_adapt_lqp_size (m : List (Nat × Expression)) :
    ∀ (b : Bool) (n : LQP), size_lqp (copy_and_adapt_lqp m b n).1 ≤ size_lqp n
  | b, .predicate p i => by
      have ih := copy_and_adapt_lqp_size m b i
      cases h : try_to_extract_join_predicate (.predicate p i) m b with
      | none => simp [copy_and_adapt_lqp, h, size_lqp]; omega
      | some jp => simp [copy_and_adapt_lqp, h, size_lqp]; omega
  | b, .join mode preds l r => by
      have ihl := copy_and_adapt_lqp_size m b l
      have ihr := copy_and_adapt_lqp_size m b r
      cases mode <;> simp [copy_and_adapt_lqp, size_lqp] <;> omega
  | b, .aggregate g a i => by
      have ih := copy_and_adapt_lqp_size m true i
      simp [copy_and_adapt_lqp, size_lqp]; omega
  | b, .projection e i => by
      have ih := copy_and_adapt_lqp_size m b i
      simp [copy_and_adapt_lqp, size_lqp]; omega
  | b, .aliasNode e al i => by
      have ih := copy_and_adapt_lqp_size m b i
      simp [copy_and_adapt_lqp, size_lqp]; omega
  | b, .sort e d i => by
      have ih := copy_and_adapt_lqp_size m b i
      simp [copy_and_adapt_lqp, size_lqp]; omega
  | b, .validate i => by
      have ih := copy_and_adapt_lqp_size m b i
      simp [copy_and_adapt_lqp, size_lqp]; omega
  | b, .storedTable tname cols => by simp [copy_and_adapt_lqp, size_lqp]
termination_by b n => n

/-- extract_finish only ever reports the subquery plan it was given. -/
theorem extract_finish_info {cols : List Expression} {cond : CompCond} {mode : JoinMode}
    {L : LQP} {ps : ParamList} {v : Expression} {lqp : LQP} {params : ParamList}
    {jm : JoinMode} {base : Option BinaryPred}
    (h : extract_finish cols cond mode L ps v = .info lqp params jm base) : lqp = L := by
  unfold extract_finish at h
  split at h
  · exact absurd h (by simp)
  · split at h
    · cases h; rfl
    · exact absurd h (by simp)

/-- The subquery plan reported by the classifier is embedded in the predicate
    expression, hence strictly smaller. -/
theorem extract_core_info_size {p : Expression} {cols : List Expression} {lqp : LQP}
    {params : ParamList} {jm : JoinMode} {base : Option BinaryPred}
    (h : extract_input_lqp_info_core p cols = .info lqp params jm base) :
    size_lqp lqp < size_expression p := by
  unfold extract_input_lqp_info_core at h
  repeat' split at h
  all_goals
    first
      | (have hL := extract_finish_info h; subst hL; simp [size_expression]; omega)
      | (cases h; simp [size_expression]; omega)
      | simp at h

/-- The adapted subquery plan in a successful rewrite is strictly smaller than the
    predicate expression that contained the subquery. -/
theorem apply_to_rewrite_core_size {p : Expression} {cols : List Expression}
    {jm : JoinMode} {ps : List Expression} {adapted : LQP}
    (h : apply_to_rewrite_core p cols = .ok (some (jm, ps, adapted))) :
    size_lqp adapted < size_expression p := by
  unfold apply_to_rewrite_core at h
  split at h
  · exact absurd h (by simp)
  · exact absurd h (by simp)
  · rename_i lqp params jm2 base hext
    simp only at h
    repeat' split at h
    all_goals first
      | (cases h
         calc size_lqp (copy_and_adapt_lqp (build_parameter_mapping params.toList) false lqp).1
             ≤ size_lqp lqp := copy_and_adapt_lqp_size _ _ _
           _ < size_expression p := extract_core_info_size hext)
      | simp at h

/-- SubqueryToJoinRule::apply_to (lines 488-567) as a plan transformer: at each
    node, either the rewrite decision replaces the predicate node by the join node
    and the rule is applied to the join's two inputs (_apply_to_inputs(join_node)),
    or the node is kept and the rule is applied to its inputs
    (_apply_to_inputs(node)).  A failed Assert aborts the whole application. -/
def apply_to : LQP → Except Unit LQP
  | .predicate p input =>
      (match h : apply_to_rewrite_core p (column_expressions input) with
       | .error _ => .error ()
       | .ok (some (jm, ps, adapted)) =>
           (match apply_to input, apply_to adapted with
            | .ok l2, .ok r2 => .ok (.join jm (ExprList.ofList ps) l2 r2)
            | .error _, _ => .error ()
            | _, .error _ => .error ())
       | .ok none => (apply_to input).map (fun i2 => .predicate p i2))
  | .join mo ps a b =>
      (match apply_to a, apply_to b with
       | .ok a2, .ok b2 => .ok (.join mo ps a2 b2)
       | .error _, _ => .error ()
       | _, .error _ => .error ())
  | .aggregate g ag i => (apply_to i).map (fun i2 => .aggregate g ag i2)
  | .projection e i => (apply_to i).map (fun i2 => .projection e i2)
  | .aliasNode e al i => (apply_to i).map (fun i2 => .aliasNode e al i2)
  | .sort e d i => (apply_to i).map (fun i2 => .sort e d i2)
  | .validate i => (apply_to i).map (fun i2 => .validate i2)
  | .storedTable tname cols => .ok (.storedTable tname cols)
termination_by n => size_lqp n
decreasing_by
  all_goals simp only [size_lqp]
  all_goals try omega
  · have := apply_to_rewrite_core_size h
    omega

deriving instance DecidableEq for Except

-- Scenario 1 of the spec's end-to-end tests: uncorrelated IN becomes a semi join.
example :
    apply_to_rewrite
      (.predicate (.inExpr false (.column 1)
        (.lqpSubquery (.projection (.cons (.column 3) .nil) (.storedTable "b" [3, 4])) .nil))
        (.storedTable "a" [1, 2])) =
    .ok (some (.semi, [.comparison .equals (.column 1) (.column 3)],
      .storedTable "a" [1, 2],
      .projection (.cons (.column 3) .nil) (.storedTable "b" [3, 4]))) := by decide

-- Scenario 4: correlated NOT IN is declined.
example :
    apply_to_rewrite
      (.predicate (.inExpr true (.column 1)
        (.lqpSubquery (.projection (.cons (.column 3) .nil)
          (.predicate (.comparison .equals (.column 4) (.correlatedParameter 0))
            (.storedTable "b" [3, 4]))) (.cons 0 (.column 2) .nil)))
        (.storedTable "a" [1, 2])) = .ok none := by decide

-- Scenario 3: correlated IN; the inner predicate is pulled up, the projection
-- acquires the compared column, and the equality derived from IN leads.
example :
    apply_to_rewrite
      (.predicate (.inExpr false (.column 1)
        (.lqpSubquery (.projection (.cons (.column 3) .nil)
          (.predicate (.comparison .equals (.column 4) (.correlatedParameter 0))
            (.storedTable "b" [3, 4]))) (.cons 0 (.column 2) .nil)))
        (.storedTable "a" [1, 2])) =
    .ok (some (.semi,
      [.comparison .equals (.column 1) (.column 3),
       .comparison .equals (.column 2) (.column 4)],
      .storedTable "a" [1, 2],
      .projection (.cons (.column 3) (.cons (.column 4) .nil)) (.storedTable "b" [3, 4]))) := by
  decide

/-- The append-if-missing loops of the node adapters, characterised as append plus
    filter. -/
theorem foldl_append_if_missing {α : Type} [DecidableEq α] (orig : List α) :
    ∀ (req acc : List α),
      req.foldl (fun acc e => if e ∈ orig then acc else acc ++ [e]) acc =
        acc ++ req.filter (fun e => decide (e ∉ orig)) := by
  intro req
  induction req with
  | nil => intro acc; simp
  | cons e rest ih =>
    intro acc
    by_cases he : e ∈ orig <;> simp [he, ih, List.filter_cons]

/-- C7: adapt_aggregate_node appends to the group-by list exactly the required
    column expressions not already present among the original group-by
    expressions, in their given order, and leaves the aggregate expressions
    unchanged; adapt_projection_node appends to the projection list exactly the
    required column expressions not already present, preserving the original
    expressions (duplicates included). -/
theorem c7_adapters_append_missing_required_columns :
    (∀ (group_by aggs required : List Expression),
        adapt_aggregate_node group_by aggs required =
          (group_by ++ required.filter (fun e => decide (e ∉ group_by)), aggs)) ∧
    (∀ (exprs required : List Expression),
        adapt_projection_node exprs required =
          exprs ++ required.filter (fun e => decide (e ∉ exprs))) := by
  constructor
  · intro group_by aggs required
    unfold adapt_aggregate_node
    rw [foldl_append_if_missing group_by required group_by]
  · intro exprs required
    unfold adapt_projection_node
    rw [foldl_append_if_missing exprs required exprs]

/-- Swapping front and back of a nonempty list puts the appended element first. -/
theorem swap_front_back_append (l : List BinaryPred) (x : BinaryPred) :
    ∃ tl, swap_front_back (l ++ [x]) = x :: tl := by
  cases l with
  | nil => exact ⟨[], rfl⟩
  | cons a rest =>
    refine ⟨rest ++ [a], ?_⟩
    simp [swap_front_back]

/-- Invariant of the join-predicate assembly loop: when the found_equals flag is
    set the list starts with an equality predicate, and when it is not set the
    list contains no equality predicate. -/
def assemble_invariant (st : List BinaryPred × Bool) : Prop :=
  (st.2 = true → ∃ a b tl, st.1 = (⟨CompCond.equals, a, b⟩ : BinaryPred) :: tl) ∧
  (st.2 = false → ∀ jp ∈ st.1, jp.cond ≠ CompCond.equals)

theorem assemble_step_preserves (st : List BinaryPred × Bool) (jp : BinaryPred)
    (h : assemble_invariant st) :
    assemble_invariant
      (if !st.2 && jp.cond = CompCond.equals then (swap_front_back (st.1 ++ [jp]), true)
       else (st.1 ++ [jp], st.2)) := by
  obtain ⟨htrue, hfalse⟩ := h
  cases hb : st.2 with
  | true =>
    rw [if_neg (by simp [hb])]
    refine ⟨fun _ => ?_, fun hff => (by simp at hff)⟩
    obtain ⟨a, b, tl, hhead⟩ := htrue hb
    exact ⟨a, b, tl ++ [jp], by rw [hhead]; rfl⟩
  | false =>
    by_cases heq : jp.cond = CompCond.equals
    · rw [if_pos (by simp [hb, heq])]
      obtain ⟨tl, hswap⟩ := swap_front_back_append st.1 jp
      refine ⟨fun _ => ?_, fun hff => by simp at hff⟩
      refine ⟨jp.leftOperand, jp.rightOperand, tl, ?_⟩
      rw [hswap]
      cases jp
      simp_all
    · rw [if_neg (by simp [hb, heq])]
      refine ⟨fun htt => (by simp at htt), fun _ p hp => ?_⟩
      rcases List.mem_append.mp hp with hmem | hmem
      · exact hfalse hb p hmem
      · have hpj : p = jp := by simpa using hmem
        subst hpj
        exact heq

theorem assemble_foldl_invariant :
    ∀ (pulled : List BinaryPred) (st : List BinaryPred × Bool), assemble_invariant st →
      assemble_invariant
        (pulled.foldl
          (fun st jp =>
            let appended := st.1 ++ [jp]
            if !st.2 && jp.cond = CompCond.equals then (swap_front_back appended, true)
            else (appended, st.2))
          st) := by
  intro pulled
  induction pulled with
  | nil => intro st h; exact h
  | cons jp rest ih =>
    intro st h
    exact ih _ (assemble_step_preserves st jp h)

/-- The assembled join-predicate list satisfies the invariant. -/
theorem assemble_join_predicates_invariant (base : Option BinaryPred)
    (pulled : List BinaryPred) :
    assemble_invariant (assemble_join_predicates base pulled) := by
  unfold assemble_join_predicates
  apply assemble_foldl_invariant
  cases base with
  | none => exact ⟨fun h => by simp at h, fun _ => by simp⟩
  | some bp =>
    constructor
    · intro h
      have hc : bp.cond = CompCond.equals := by simpa using h
      refine ⟨bp.leftOperand, bp.rightOperand, [], ?_⟩
      cases bp
      simp_all
    · intro h
      have hc : ¬ bp.cond = CompCond.equals := by simpa using h
      intro p hp
      have hpb : p = bp := by simpa using hp
      subst hpb
      exact hc

/-- C3: whenever apply_to replaces a predicate node by a semi/anti join, the
    join's predicate list is nonempty and its first predicate is an equality
    comparison; and when the assembled predicate list contains no equality
    (in particular when it is empty), the rewrite declines (the node is kept and
    only its inputs are visited). -/
theorem c3_first_join_predicate_is_equality :
    (∀ (n : LQP) (jm : JoinMode) (ps : List Expression) (l r : LQP),
        apply_to_rewrite n = .ok (some (jm, ps, l, r)) →
          ps ≠ [] ∧ ∃ a b tl, ps = Expression.comparison CompCond.equals a b :: tl) ∧
    (∀ (p : Expression) (cols : List Expression) (lqp : LQP) (params : ParamList)
        (jm : JoinMode) (base : Option BinaryPred),
        extract_input_lqp_info_core p cols = .info lqp params jm base →
        (∀ jp ∈ (assemble_join_predicates base
            ((find_pullable_predicate_nodes lqp (build_parameter_mapping params.toList)).map
              (fun pr => pr.2))).1, jp.cond ≠ CompCond.equals) →
        apply_to_rewrite_core p cols = .ok none) := by
  constructor
  · intro n jm ps l r h
    unfold apply_to_rewrite at h
    cases n with
    | predicate p input =>
      simp only at h
      cases hcore : apply_to_rewrite_core p (column_expressions input) with
      | error e => rw [hcore] at h; simp at h
      | ok o =>
        rw [hcore] at h
        cases o with
        | none => simp at h
        | some trip =>
          obtain ⟨jm2, ps2, ad⟩ := trip
          simp only at h
          cases h
          unfold apply_to_rewrite_core at hcore
          split at hcore
          · simp at hcore
          · simp at hcore
          · rename_i lqp params jm3 base hext
            simp only at hcore
            split at hcore
            · simp at hcore
            · split at hcore
              · simp at hcore
              · split at hcore
                · simp at hcore
                · rename_i hblocked hcount hguard
                  cases hcore
                  have hinv := assemble_join_predicates_invariant base
                    ((find_pullable_predicate_nodes lqp
                      (build_parameter_mapping params.toList)).map (fun pr => pr.2))
                  have hflag :
                      (assemble_join_predicates base
                        ((find_pullable_predicate_nodes lqp
                          (build_parameter_mapping params.toList)).map (fun pr => pr.2))).2 =
                        true := by
                    rcases Bool.eq_false_or_eq_true
                      (assemble_join_predicates base
                        ((find_pullable_predicate_nodes lqp
                          (build_parameter_mapping params.toList)).map (fun pr => pr.2))).2 with
                      ht | hf
                    · exact ht
                    · exact absurd (by simp [hf]) hguard
                  obtain ⟨a, b, tl, hhead⟩ := hinv.1 hflag
                  constructor
                  · simp [hhead]
                  · exact ⟨a, b, tl.map BinaryPred.toExpression,
                      by simp [hhead, BinaryPred.toExpression]⟩
    | join mo ps2 a b => simp at h
    | aggregate g ag i => simp at h
    | projection e i => simp at h
    | aliasNode e al i => simp at h
    | sort e d i => simp at h
    | validate i => simp at h
    | storedTable tname cols => simp at h
  · intro p cols lqp params jm base hext hnoeq
    unfold apply_to_rewrite_core
    rw [hext]
    simp only
    by_cases h1 : (assess_correlated_parameter_usage lqp (build_parameter_mapping
        params.toList)).1 = true
    · simp [h1]
    · have hflag :
          (assemble_join_predicates base
            ((find_pullable_predicate_nodes lqp
              (build_parameter_mapping params.toList)).map (fun pr => pr.2))).2 = false := by
        rcases Bool.eq_false_or_eq_true
          (assemble_join_predicates base
            ((find_pullable_predicate_nodes lqp
              (build_parameter_mapping params.toList)).map (fun pr => pr.2))).2 with ht | hf
        · obtain ⟨a, b, tl, hhead⟩ :=
            (assemble_join_predicates_invariant base
              ((find_pullable_predicate_nodes lqp
                (build_parameter_mapping params.toList)).map (fun pr => pr.2))).1 ht
          exact absurd rfl
            (hnoeq ⟨CompCond.equals, a, b⟩ (by rw [hhead]; exact List.mem_cons_self _ _))
        · exact hf
      by_cases h2 : (find_pullable_predicate_nodes lqp
          (build_parameter_mapping params.toList)).length =
          (assess_correlated_parameter_usage lqp (build_parameter_mapping params.toList)).2
      · simp [h1, h2, hflag]
      · simp [h1, h2]

/-- Witness for C3 at the uncorrelated IN scenario. -/
theorem c3_first_join_predicate_is_equality_witness :
    ([Expression.comparison CompCond.equals (.column 1) (.column 3)] : List Expression) ≠ [] ∧
      ∃ a b tl, ([Expression.comparison CompCond.equals (.column 1) (.column 3)] :
          List Expression) = Expression.comparison CompCond.equals a b :: tl :=
  c3_first_join_predicate_is_equality.1
    (.predicate (.inExpr false (.column 1)
      (.lqpSubquery (.projection (.cons (.column 3) .nil) (.storedTable "b" [3, 4])) .nil))
      (.storedTable "a" [1, 2]))
    .semi [Expression.comparison CompCond.equals (.column 1) (.column 3)]
    (.storedTable "a" [1, 2])
    (.projection (.cons (.column 3) .nil) (.storedTable "b" [3, 4]))
    (by decide)

/-- The rewrite decision fails (propagating the Assert) exactly when the
    classifier's assertion fails; every other path returns ok. -/
theorem apply_to_rewrite_core_error {p : Expression} {cols : List Expression} :
    apply_to_rewrite_core p cols = .error () ↔
      extract_input_lqp_info_core p cols = .assertionFailure := by
  unfold apply_to_rewrite_core
  cases h : extract_input_lqp_info_core p cols with
  | decline => simp
  | assertionFailure => simp
  | info lqp params jm base =>
    simp only
    constructor
    · intro hh
      split at hh
      · simp at hh
      · split at hh
        · simp at hh
        · split at hh
          · simp at hh
          · simp at hh
    · intro hh
      simp at hh

/-- A failing rewrite decision aborts apply_to at the predicate node. -/
theorem apply_to_predicate_error {p : Expression} {input : LQP}
    (h : apply_to_rewrite_core p (column_expressions input) = .error ()) :
    apply_to (.predicate p input) = .error () := by
  unfold apply_to
  split
  · rfl
  · rename_i jm ps adapted heq
    rw [h] at heq
    cases heq
  · rename_i heq
    rw [h] at heq
    cases heq

/-- C4 counterexample: a predicate node whose IN-subquery produces two output
    columns.  extract_input_lqp_info raises an assertion failure rather than
    declining, and apply_to aborts with an error instead of leaving the plan
    untouched and descending into the inputs. -/
theorem c4_counterexample_multicolumn_subquery_asserts :
    extract_input_lqp_info
        (.predicate (.inExpr false (.column 1)
          (.lqpSubquery (.storedTable "b" [3, 4]) .nil)) (.storedTable "a" [1, 2])) =
      .assertionFailure ∧
    extract_input_lqp_info
        (.predicate (.inExpr false (.column 1)
          (.lqpSubquery (.storedTable "b" [3, 4]) .nil)) (.storedTable "a" [1, 2])) ≠
      .decline ∧
    apply_to
        (.predicate (.inExpr false (.column 1)
          (.lqpSubquery (.storedTable "b" [3, 4]) .nil)) (.storedTable "a" [1, 2])) =
      .error () :=
  ⟨by decide, by decide,
    apply_to_predicate_error (apply_to_rewrite_core_error.mpr (by decide))⟩

/-- Shared Assert tail of the IN and comparison cases: when the comparison
    expression resolves to a column of the left input and the subquery produces a
    number of columns different from one, extract_finish fails the Assert of line
    180. -/
theorem extract_finish_assert {left_cols : List Expression} {cond : CompCond}
    {mode : JoinMode} {lqp : LQP} {params : ParamList} {v : Expression}
    (hmem : v ∈ left_cols) (hlen : (column_expressions lqp).length ≠ 1) :
    extract_finish left_cols cond mode lqp params v = .assertionFailure := by
  unfold extract_finish
  rw [if_neg (not_not_intro hmem)]
  cases hcols : column_expressions lqp with
  | nil => rfl
  | cons c rest =>
    cases rest with
    | nil => exact absurd (by rw [hcols]; rfl) hlen
    | cons c2 rest2 => rfl

/-- C4 amended: on an IN or scalar-comparison shape whose subquery produces a
    number of columns different from one (once the earlier checks pass: the set or
    the left-first-chosen comparison operand is a subquery, not a correlated NOT
    IN, and the value operand resolves to a column of the left input), the rule
    performs no rewriting, but it does not decline silently: the classifier raises
    an assertion failure and the whole rule application aborts instead of
    descending into the node's inputs.  The second conjunct covers a binary
    comparison with the subquery on either side (left-first choice); the third
    propagates the assertion failure through apply_to. -/
theorem c4_amended_assert_on_multicolumn :
    (∀ (neg : Bool) (v : Expression) (lqp : LQP) (ps : ParamList) (input : LQP),
        ¬(neg = true ∧ ps ≠ ParamList.nil) →
        v ∈ column_expressions input →
        (column_expressions lqp).length ≠ 1 →
        extract_input_lqp_info
            (.predicate (.inExpr neg v (.lqpSubquery lqp ps)) input) = .assertionFailure) ∧
    (∀ (cond : CompCond) (a b : Expression) (lqp : LQP) (ps : ParamList) (input : LQP),
        ((a = .lqpSubquery lqp ps ∧ b ∈ column_expressions input) ∨
          ((∀ l q, a ≠ Expression.lqpSubquery l q) ∧ b = .lqpSubquery lqp ps ∧
            a ∈ column_expressions input)) →
        (column_expressions lqp).length ≠ 1 →
        extract_input_lqp_info
            (.predicate (.comparison cond a b) input) = .assertionFailure) ∧
    (∀ (p : Expression) (input : LQP),
        extract_input_lqp_info (.predicate p input) = .assertionFailure →
        apply_to (.predicate p input) = .error ()) := by
  refine ⟨?_, ?_, ?_⟩
  · intro neg v lqp ps input hnotin hmem hlen
    have hcond : (neg && !decide (ps = ParamList.nil)) = false := by
      rcases Bool.eq_false_or_eq_true neg with h1 | h1
      · rcases Classical.em (ps = ParamList.nil) with h2 | h2
        · simp [h2]
        · exact absurd ⟨h1, h2⟩ hnotin
      · simp [h1]
    simp only [extract_input_lqp_info, extract_input_lqp_info_core, hcond,
      Bool.false_eq_true, if_false]
    exact extract_finish_assert hmem hlen
  · intro cond a b lqp ps input hshape hlen
    rcases hshape with ⟨ha, hmem⟩ | ⟨hna, hb, hmem⟩
    · subst ha
      simp only [extract_input_lqp_info, extract_input_lqp_info_core]
      exact extract_finish_assert hmem hlen
    · subst hb
      cases a with
      | lqpSubquery l q => exact absurd rfl (hna l q)
      | column id =>
          simp only [extract_input_lqp_info, extract_input_lqp_info_core]
          exact extract_finish_assert hmem hlen
      | value v =>
          simp only [extract_input_lqp_info, extract_input_lqp_info_core]
          exact extract_finish_assert hmem hlen
      | correlatedParameter pid =>
          simp only [extract_input_lqp_info, extract_input_lqp_info_core]
          exact extract_finish_assert hmem hlen
      | comparison c2 x y =>
          simp only [extract_input_lqp_info, extract_input_lqp_info_core]
          exact extract_finish_assert hmem hlen
      | inExpr n2 x y =>
          simp only [extract_input_lqp_info, extract_input_lqp_info_core]
          exact extract_finish_assert hmem hlen
      | isNullExpr n2 x =>
          simp only [extract_input_lqp_info, extract_input_lqp_info_core]
          exact extract_finish_assert hmem hlen
      | existsExpr n2 x =>
          simp only [extract_input_lqp_info, extract_input_lqp_info_core]
          exact extract_finish_assert hmem hlen
  · intro p input h
    exact apply_to_predicate_error (apply_to_rewrite_core_error.mpr h)

/-- Witness for the amended C4: a two-column IN subquery and a two-column
    comparison subquery both assert, and the IN assertion aborts apply_to. -/
theorem c4_amended_assert_on_multicolumn_witness :
    extract_input_lqp_info
        (.predicate (.inExpr false (.column 1)
          (.lqpSubquery (.storedTable "c" [5, 6]) .nil)) (.storedTable "d" [1])) =
      .assertionFailure ∧
    extract_input_lqp_info
        (.predicate (.comparison .lessThan (.column 1)
          (.lqpSubquery (.storedTable "b" [3, 4]) .nil)) (.storedTable "a" [1, 2])) =
      .assertionFailure ∧
    apply_to
        (.predicate (.inExpr false (.column 1)
          (.lqpSubquery (.storedTable "c" [5, 6]) .nil)) (.storedTable "d" [1])) =
      .error () := by
  have h1 := c4_amended_assert_on_multicolumn.1 false (.column 1) (.storedTable "c" [5, 6])
    ParamList.nil (.storedTable "d" [1]) (by simp) (by decide) (by decide)
  have h2 := c4_amended_assert_on_multicolumn.2.1 CompCond.lessThan (.column 1)
    (.lqpSubquery (.storedTable "b" [3, 4]) .nil) (.storedTable "b" [3, 4]) ParamList.nil
    (.storedTable "a" [1, 2])
    (Or.inr ⟨(fun l q h => nomatch h), rfl, by decide⟩) (by decide)
  exact ⟨h1, h2, c4_amended_assert_on_multicolumn.2.2 _ _ h1⟩

/-- C8 counterexample: the same correlated predicate below both sides of an inner
    join (in the DAG-shaped C++ plans this arises when the two join inputs share a
    subplan, so that the same column expression is required from both sides).
    Both predicate removals add their operand to their own side's list, and the
    join merge concatenates the two lists without deduplication, producing a
    required-columns list with two equal expressions. -/
theorem c8_counterexample_join_merge_duplicates :
    (copy_and_adapt_lqp [(0, Expression.column 9)] false
        (.join .inner .nil
          (.predicate (.comparison .equals (.correlatedParameter 0) (.column 5))
            (.storedTable "t" [5]))
          (.predicate (.comparison .equals (.correlatedParameter 0) (.column 5))
            (.storedTable "t" [5])))).2 =
      [Expression.column 5, Expression.column 5] ∧
    ¬ (copy_and_adapt_lqp [(0, Expression.column 9)] false
        (.join .inner .nil
          (.predicate (.comparison .equals (.correlatedParameter 0) (.column 5))
            (.storedTable "t" [5]))
          (.predicate (.comparison .equals (.correlatedParameter 0) (.column 5))
            (.storedTable "t" [5])))).2.Nodup := by
  constructor
  · decide
  · decide

/-- The region of a plan visited by copy_and_adapt_lqp contains no join whose two
    sides are both recursed into (no Inner or Cross join). -/
def adapter_merges_no_join_sides : LQP → Bool
  | .predicate _ i => adapter_merges_no_join_sides i
  | .join mode _ l r =>
    (match mode with
     | .inner | .cross => false
     | .leftOuter | .semi | .antiNullAsFalse | .antiNullAsTrue => adapter_merges_no_join_sides l
     | .rightOuter => adapter_merges_no_join_sides r
     | .fullOuter => true)
  | .aggregate _ _ i => adapter_merges_no_join_sides i
  | .projection _ i => adapter_merges_no_join_sides i
  | .aliasNode _ _ i => adapter_merges_no_join_sides i
  | .sort _ _ i => adapter_merges_no_join_sides i
  | .validate i => adapter_merges_no_join_sides i
  | .storedTable _ _ => true
termination_by structural n => n

/-- C8 amended: at each removed pullable predicate node the inner-column operand
    is added only when not already present in the accumulated list, so whenever
    the visited region of the subquery plan contains no inner/cross join (whose
    merge concatenates the two sides' lists without deduplication), the resulting
    required_column_expressions list never contains two equal expressions. -/
theorem c8_amended_required_columns_nodup :
    ∀ (m : List (Nat × Expression)) (b : Bool) (n : LQP),
      adapter_merges_no_join_sides n = true →
      (copy_and_adapt_lqp m b n).2.Nodup
  | m, b, .predicate p i => by
      intro h
      have ih := c8_amended_required_columns_nodup m b i
        (by simpa [adapter_merges_no_join_sides] using h)
      cases hjp : try_to_extract_join_predicate (.predicate p i) m b with
      | none => simpa [copy_and_adapt_lqp, hjp] using ih
      | some jp =>
        simp only [copy_and_adapt_lqp, hjp]
        by_cases hmem : jp.rightOperand ∈ (copy_and_adapt_lqp m b i).2
        · simpa [hmem] using ih
        · simp only [hmem, if_neg, not_false_iff, if_false]
          rw [← List.concat_eq_append]
          exact List.Nodup.concat hmem ih
  | m, b, .join mode preds l r => by
      intro h
      cases mode <;> simp [adapter_merges_no_join_sides] at h <;>
        simp [copy_and_adapt_lqp]
      case leftOuter => exact c8_amended_required_columns_nodup m b l h
      case rightOuter => exact c8_amended_required_columns_nodup m b r h
      case semi => exact c8_amended_required_columns_nodup m b l h
      case antiNullAsFalse => exact c8_amended_required_columns_nodup m b l h
      case antiNullAsTrue => exact c8_amended_required_columns_nodup m b l h
  | m, b, .aggregate g a i => by
      intro h
      simpa [copy_and_adapt_lqp] using
        c8_amended_required_columns_nodup m true i
          (by simpa [adapter_merges_no_join_sides] using h)
  | m, b, .projection e i => by
      intro h
      simpa [copy_and_adapt_lqp] using
        c8_amended_required_columns_nodup m b i
          (by simpa [adapter_merges_no_join_sides] using h)
  | m, b, .aliasNode e al i => by
      intro h
      simpa [copy_and_adapt_lqp] using
        c8_amended_required_columns_nodup m b i
          (by simpa [adapter_merges_no_join_sides] using h)
  | m, b, .sort e d i => by
      intro h
      simpa [copy_and_adapt_lqp] using
        c8_amended_required_columns_nodup m b i
          (by simpa [adapter_merges_no_join_sides] using h)
  | m, b, .validate i => by
      intro h
      simpa [copy_and_adapt_lqp] using
        c8_amended_required_columns_nodup m b i
          (by simpa [adapter_merges_no_join_sides] using h)
  | m, b, .storedTable tname cols => by
      intro h
      simp [copy_and_adapt_lqp]
termination_by m b n => n

/-- Witness for the amended C8: two stacked correlated predicates over the same
    column; the second removal finds the column already present and does not add
    it again. -/
theorem c8_amended_required_columns_nodup_witness :
    (copy_and_adapt_lqp [(0, Expression.column 9), (1, Expression.column 8)] false
        (.predicate (.comparison .equals (.correlatedParameter 0) (.column 5))
          (.predicate (.comparison .equals (.correlatedParameter 1) (.column 5))
            (.storedTable "t" [5])))).2.Nodup :=
  c8_amended_required_columns_nodup [(0, Expression.column 9), (1, Expression.column 8)] false
    (.predicate (.comparison .equals (.correlatedParameter 0) (.column 5))
      (.predicate (.comparison .equals (.correlatedParameter 1) (.column 5))
        (.storedTable "t" [5])))
    (by decide)

/-- The predicate classifier as claim C2 states it: In/NotIn whose set is a
    subquery gives Semi (In) or AntiNullAsTrue (NotIn) with base predicate
    (value = c) for the subquery's single output column c, declining correlated
    NotIn and unresolvable values; a binary comparison with a subquery on exactly
    one side gives Semi with base predicate (outer op inner), the op flipped when
    the subquery is the left operand; Exists/NotExists only when correlated, with
    Semi or AntiNullAsFalse and no base predicate; none for every other shape. -/
def predicate_classifier_spec (n : LQP) : ExtractResult :=
  match n with
  | .predicate p input =>
    (match p with
     | .inExpr negated v set =>
       (match set with
        | .lqpSubquery lqp params =>
            if negated = true ∧ params ≠ ParamList.nil then .decline
            else if v ∉ column_expressions input then .decline
            else
              (match column_expressions lqp with
               | [c] => .info lqp params (if negated then .antiNullAsTrue else .semi)
                   (some ⟨.equals, v, c⟩)
               | _ => .decline)
        | _ => .decline)
     | .comparison cond a b =>
       (match a, b with
        | .lqpSubquery _ _, .lqpSubquery _ _ => .decline
        | .lqpSubquery lqp params, vb =>
            if vb ∉ column_expressions input then .decline
            else
              (match column_expressions lqp with
               | [c] => .info lqp params .semi (some ⟨flip_predicate_condition cond, vb, c⟩)
               | _ => .decline)
        | va, .lqpSubquery lqp params =>
            if va ∉ column_expressions input then .decline
            else
              (match column_expressions lqp with
               | [c] => .info lqp params .semi (some ⟨cond, va, c⟩)
               | _ => .decline)
        | _, _ => .decline)
     | .existsExpr negated sub =>
       (match sub with
        | .lqpSubquery lqp params =>
            if params = ParamList.nil then .decline
            else .info lqp params (if negated then .antiNullAsFalse else .semi) none
        | _ => .decline)
     | _ => .decline)
  | _ => .decline

/-- C2 counterexample: a comparison with subqueries on both sides, where the right
    subquery expression happens to be a column expression of the left input (a
    projection can output a subquery expression).  The claim (subquery on exactly
    one side; none for every other shape) requires none, but the code tests the
    left operand first and rewrites. -/
theorem c2_counterexample_two_subquery_comparison :
    extract_input_lqp_info
        (.predicate
          (.comparison .lessThan
            (.lqpSubquery (.projection (.cons (.column 7) .nil) (.storedTable "u" [7])) .nil)
            (.lqpSubquery (.storedTable "w" [8]) .nil))
          (.projection (.cons (.lqpSubquery (.storedTable "w" [8]) .nil) .nil)
            (.storedTable "z" [3]))) ≠
      predicate_classifier_spec
        (.predicate
          (.comparison .lessThan
            (.lqpSubquery (.projection (.cons (.column 7) .nil) (.storedTable "u" [7])) .nil)
            (.lqpSubquery (.storedTable "w" [8]) .nil))
          (.projection (.cons (.lqpSubquery (.storedTable "w" [8]) .nil) .nil)
            (.storedTable "z" [3]))) ∧
    extract_input_lqp_info
        (.predicate
          (.comparison .lessThan
            (.lqpSubquery (.projection (.cons (.column 7) .nil) (.storedTable "u" [7])) .nil)
            (.lqpSubquery (.storedTable "w" [8]) .nil))
          (.projection (.cons (.lqpSubquery (.storedTable "w" [8]) .nil) .nil)
            (.storedTable "z" [3]))) =
      .info (.projection (.cons (.column 7) .nil) (.storedTable "u" [7])) .nil .semi
        (some ⟨.greaterThan, .lqpSubquery (.storedTable "w" [8]) .nil, .column 7⟩) ∧
    predicate_classifier_spec
        (.predicate
          (.comparison .lessThan
            (.lqpSubquery (.projection (.cons (.column 7) .nil) (.storedTable "u" [7])) .nil)
            (.lqpSubquery (.storedTable "w" [8]) .nil))
          (.projection (.cons (.lqpSubquery (.storedTable "w" [8]) .nil) .nil)
            (.storedTable "z" [3]))) = .decline := by
  refine ⟨by decide, by decide, by decide⟩

/-- The predicate classifier as amended: the subquery side of a binary comparison
    is chosen left-first (when both operands are subqueries the left one is taken
    and the right is treated as the value), and on In/comparison shapes whose
    chosen subquery does not produce exactly one column, or an Exists whose
    operand is not an embedded plan, the classifier raises the assertion failure
    instead of returning none. -/
def predicate_classifier_spec_amended (n : LQP) : ExtractResult :=
  match n with
  | .predicate p input =>
    (match p with
     | .inExpr negated v set =>
       (match set with
        | .lqpSubquery lqp params =>
            if negated = true ∧ params ≠ ParamList.nil then .decline
            else if v ∉ column_expressions input then .decline
            else
              (match column_expressions lqp with
               | [c] => .info lqp params (if negated then .antiNullAsTrue else .semi)
                   (some ⟨.equals, v, c⟩)
               | _ => .assertionFailure)
        | _ => .decline)
     | .comparison cond a b =>
       (match a with
        | .lqpSubquery lqp params =>
            if b ∉ column_expressions input then .decline
            else
              (match column_expressions lqp with
               | [c] => .info lqp params .semi (some ⟨flip_predicate_condition cond, b, c⟩)
               | _ => .assertionFailure)
        | _ =>
          (match b with
           | .lqpSubquery lqp params =>
               if a ∉ column_expressions input then .decline
               else
                 (match column_expressions lqp with
                  | [c] => .info lqp params .semi (some ⟨cond, a, c⟩)
                  | _ => .assertionFailure)
           | _ => .decline))
     | .existsExpr negated sub =>
       (match sub with
        | .lqpSubquery lqp params =>
            if params = ParamList.nil then .decline
            else .info lqp params (if negated then .antiNullAsFalse else .semi) none
        | _ => .assertionFailure)
     | _ => .decline)
  | _ => .decline

/-- C2 amended: the classifier behaves exactly as the amended description states,
    on every node. -/
theorem c2_amended_classifier_characterisation :
    ∀ n : LQP, extract_input_lqp_info n = predicate_classifier_spec_amended n := by
  intro n
  cases n <;> try rfl
  case predicate p input =>
    cases p <;> try rfl
    case inExpr negated v set =>
      cases set <;> try rfl
      case lqpSubquery lqp params =>
        simp only [extract_input_lqp_info, extract_input_lqp_info_core,
          predicate_classifier_spec_amended, extract_finish]
        by_cases hcorr : negated = true ∧ params ≠ ParamList.nil
        · have hb : (negated && !decide (params = ParamList.nil)) = true := by
            simp [hcorr.1, hcorr.2]
          rw [if_pos hb, if_pos hcorr]
        · have hb : ¬((negated && !decide (params = ParamList.nil)) = true) := by
            intro hx
            rcases Bool.and_eq_true _ _ |>.mp hx with ⟨h1, h2⟩
            exact hcorr ⟨h1, by simpa using h2⟩
          rw [if_neg hb, if_neg hcorr]


/-- Number of correlated predicate nodes in a subquery plan (what
    assess_correlated_parameter_usage counts when no usage blocks). -/
def count_correlated_predicate_nodes (m : List (Nat × Expression)) : LQP → Nat
  | .predicate p i =>
      (if uses_correlated_parameters (.predicate p i) m then 1 else 0) +
        count_correlated_predicate_nodes m i
  | .join _ _ l r =>
      count_correlated_predicate_nodes m l + count_correlated_predicate_nodes m r
  | .aggregate _ _ i => count_correlated_predicate_nodes m i
  | .projection _ i => count_correlated_predicate_nodes m i
  | .aliasNode _ _ i => count_correlated_predicate_nodes m i
  | .sort _ _ i => count_correlated_predicate_nodes m i
  | .validate i => count_correlated_predicate_nodes m i
  | .storedTable _ _ => 0
termination_by structural n => n

/-- Does some node of the plan use a correlated parameter outside a predicate
    node (the condition that makes assess_correlated_parameter_usage report
    not-optimizable)? -/
def contains_blocking_usage (m : List (Nat × Expression)) : LQP → Bool
  | .predicate _ i => contains_blocking_usage m i
  | .join mode ps l r =>
      uses_correlated_parameters (.join mode ps l r) m || contains_blocking_usage m l ||
        contains_blocking_usage m r
  | .aggregate g a i =>
      uses_correlated_parameters (.aggregate g a i) m || contains_blocking_usage m i
  | .projection e i =>
      uses_correlated_parameters (.projection e i) m || contains_blocking_usage m i
  | .aliasNode e al i =>
      uses_correlated_parameters (.aliasNode e al i) m || contains_blocking_usage m i
  | .sort e d i =>
      uses_correlated_parameters (.sort e d i) m || contains_blocking_usage m i
  | .validate i =>
      uses_correlated_parameters (.validate i) m || contains_blocking_usage m i
  | .storedTable tname cols =>
      uses_correlated_parameters (.storedTable tname cols) m
termination_by structural n => n

/-- In a plan without blocking usages, the analyzer's visit keeps the optimizable
    flag and adds exactly the number of correlated predicate nodes to the
    count. -/
theorem assess_visit_no_blocker (m : List (Nat × Expression)) :
    ∀ (n : LQP) (c : Nat), contains_blocking_usage m n = false →
      assess_visit m n true c = (true, c + count_correlated_predicate_nodes m n)
  | .predicate p i, c => by
      intro h
      have hchild : contains_blocking_usage m i = false := by
        simpa [contains_blocking_usage] using h
      by_cases huses : uses_correlated_parameters (.predicate p i) m = true
      · have hstep : assess_visit m (.predicate p i) true c = assess_visit m i true (c + 1) := by
          simp [assess_visit, huses]
        rw [hstep, assess_visit_no_blocker m i (c + 1) hchild]
        simp [count_correlated_predicate_nodes, huses]
        omega
      · simp at huses
        have hstep : assess_visit m (.predicate p i) true c = assess_visit m i true c := by
          simp [assess_visit, huses]
        rw [hstep, assess_visit_no_blocker m i c hchild]
        simp [count_correlated_predicate_nodes, huses]
  | .join mode ps l r, c => by
      intro h
      simp only [contains_blocking_usage, Bool.or_eq_false_iff] at h
      obtain ⟨⟨huses, hl⟩, hr⟩ := h
      rw [show assess_visit m (.join mode ps l r) true c =
          (let s := assess_visit m l true c
           assess_visit m r s.1 s.2) from by simp [assess_visit, huses]]
      simp only [assess_visit_no_blocker m l c hl]
      rw [assess_visit_no_blocker m r (c + count_correlated_predicate_nodes m l) hr]
      simp [count_correlated_predicate_nodes]
      omega
  | .aggregate g a i, c => by
      intro h
      simp only [contains_blocking_usage, Bool.or_eq_false_iff] at h
      rw [show assess_visit m (.aggregate g a i) true c = assess_visit m i true c from by
        simp [assess_visit, h.1]]
      rw [assess_visit_no_blocker m i c h.2]
      simp [count_correlated_predicate_nodes]
  | .projection e i, c => by
      intro h
      simp only [contains_blocking_usage, Bool.or_eq_false_iff] at h
      rw [show assess_visit m (.projection e i) true c = assess_visit m i true c from by
        simp [assess_visit, h.1]]
      rw [assess_visit_no_blocker m i c h.2]
      simp [count_correlated_predicate_nodes]
  | .aliasNode e al i, c => by
      intro h
      simp only [contains_blocking_usage, Bool.or_eq_false_iff] at h
      rw [show assess_visit m (.aliasNode e al i) true c = assess_visit m i true c from by
        simp [assess_visit, h.1]]
      rw [assess_visit_no_blocker m i c h.2]
      simp [count_correlated_predicate_nodes]
  | .sort e d i, c => by
      intro h
      simp only [contains_blocking_usage, Bool.or_eq_false_iff] at h
      rw [show assess_visit m (.sort e d i) true c = assess_visit m i true c from by
        simp [assess_visit, h.1]]
      rw [assess_visit_no_blocker m i c h.2]
      simp [count_correlated_predicate_nodes]
  | .validate i, c => by
      intro h
      simp only [contains_blocking_usage, Bool.or_eq_false_iff] at h
      rw [show assess_visit m (.validate i) true c = assess_visit m i true c from by
        simp [assess_visit, h.1]]
      rw [assess_visit_no_blocker m i c h.2]
      simp [count_correlated_predicate_nodes]
  | .storedTable tname cols, c => by
      intro h
      simp only [contains_blocking_usage] at h
      simp [assess_visit, h, count_correlated_predicate_nodes]
termination_by n c => n

/-- In a plan with a blocking usage, the analyzer's visit clears the optimizable
    flag. -/
theorem assess_visit_blocked (m : List (Nat × Expression)) :
    ∀ (n : LQP) (c : Nat), contains_blocking_usage m n = true →
      (assess_visit m n true c).1 = false
  | .predicate p i, c => by
      intro h
      have hchild : contains_blocking_usage m i = true := by
        simpa [contains_blocking_usage] using h
      by_cases huses : uses_correlated_parameters (.predicate p i) m = true
      · have hstep : assess_visit m (.predicate p i) true c = assess_visit m i true (c + 1) := by
          simp [assess_visit, huses]
        rw [hstep]
        exact assess_visit_blocked m i (c + 1) hchild
      · simp at huses
        have hstep : assess_visit m (.predicate p i) true c = assess_visit m i true c := by
          simp [assess_visit, huses]
        rw [hstep]
        exact assess_visit_blocked m i c hchild
  | .join mode ps l r, c => by
      intro h
      by_cases huses : uses_correlated_parameters (.join mode ps l r) m = true
      · simp [assess_visit, huses]
      · simp at huses
        simp only [contains_blocking_usage, huses, Bool.false_or, Bool.or_eq_true] at h
        rw [show assess_visit m (.join mode ps l r) true c =
            (let s := assess_visit m l true c
             assess_visit m r s.1 s.2) from by simp [assess_visit, huses]]
        rcases Bool.eq_false_or_eq_true (contains_blocking_usage m l) with hlt | hlf
        · have h1 := assess_visit_blocked m l c hlt
          cases hv : assess_visit m l true c with
          | mk flag cnt =>
            rw [hv] at h1
            simp only at h1
            subst h1
            simp [assess_visit]
        · rcases h with hl | hr
          · rw [hlf] at hl
            cases hl
          · have h1 := assess_visit_no_blocker m l c hlf
            simp only [h1]
            exact assess_visit_blocked m r _ hr
  | .aggregate g a i, c => by
      intro h
      by_cases huses : uses_correlated_parameters (.aggregate g a i) m = true
      · simp [assess_visit, huses]
      · simp at huses
        simp only [contains_blocking_usage, huses, Bool.false_or] at h
        rw [show assess_visit m (.aggregate g a i) true c = assess_visit m i true c from by
          simp [assess_visit, huses]]
        exact assess_visit_blocked m i c h
  | .projection e i, c => by
      intro h
      by_cases huses : uses_correlated_parameters (.projection e i) m = true
      · simp [assess_visit, huses]
      · simp at huses
        simp only [contains_blocking_usage, huses, Bool.false_or] at h
        rw [show assess_visit m (.projection e i) true c = assess_visit m i true c from by
          simp [assess_visit, huses]]
        exact assess_visit_blocked m i c h
  | .aliasNode e al i, c => by
      intro h
      by_cases huses : uses_correlated_parameters (.aliasNode e al i) m = true
      · simp [assess_visit, huses]
      · simp at huses
        simp only [contains_blocking_usage, huses, Bool.false_or] at h
        rw [show assess_visit m (.aliasNode e al i) true c = assess_visit m i true c from by
          simp [assess_visit, huses]]
        exact assess_visit_blocked m i c h
  | .sort e d i, c => by
      intro h
      by_cases huses : uses_correlated_parameters (.sort e d i) m = true
      · simp [assess_visit, huses]
      · simp at huses
        simp only [contains_blocking_usage, huses, Bool.false_or] at h
        rw [show assess_visit m (.sort e d i) true c = assess_visit m i true c from by
          simp [assess_visit, huses]]
        exact assess_visit_blocked m i c h
  | .validate i, c => by
      intro h
      by_cases huses : uses_correlated_parameters (.validate i) m = true
      · simp [assess_visit, huses]
      · simp at huses
        simp only [contains_blocking_usage, huses, Bool.false_or] at h
        rw [show assess_visit m (.validate i) true c = assess_visit m i true c from by
          simp [assess_visit, huses]]
        exact assess_visit_blocked m i c h
  | .storedTable tname cols, c => by
      intro h
      simp only [contains_blocking_usage] at h
      simp [assess_visit, h]
termination_by n c => n

/-- When the analyzer reports not-blocked it has counted exactly the correlated
    predicate nodes of the (tree-shaped) plan. -/
theorem assess_not_blocked_count (lqp : LQP) (m : List (Nat × Expression))
    (h : (assess_correlated_parameter_usage lqp m).1 = false) :
    contains_blocking_usage m lqp = false ∧
      (assess_correlated_parameter_usage lqp m).2 = count_correlated_predicate_nodes m lqp := by
  rcases Bool.eq_false_or_eq_true (contains_blocking_usage m lqp) with ht | hf
  · exfalso
    unfold assess_correlated_parameter_usage at h
    have hb := assess_visit_blocked m lqp 0 ht
    cases hv : assess_visit m lqp true 0 with
    | mk flag cnt =>
      rw [hv] at hb h
      simp only at hb
      subst hb
      simp at h
  · refine ⟨hf, ?_⟩
    unfold assess_correlated_parameter_usage
    rw [assess_visit_no_blocker m lqp 0 hf]
    simp

/-- A successfully extracted join predicate comes from a correlation-using
    predicate node: one operand is a correlated parameter bound in the mapping. -/
theorem extract_correlated_side_some {cond0 : CompCond} {l r : Expression} {pid : Nat}
    {cond1 : CompCond} {rop : Expression}
    (h : extract_correlated_side cond0 l r = some (pid, cond1, rop)) :
    l = .correlatedParameter pid ∨ r = .correlatedParameter pid := by
  unfold extract_correlated_side at h
  split at h
  · cases h
    exact Or.inl rfl
  · split at h
    · cases h
      exact Or.inr rfl
    · cases h

theorem try_to_extract_some_uses {pn : LQP} {m : List (Nat × Expression)} {b : Bool}
    {jp : BinaryPred} (h : try_to_extract_join_predicate pn m b = some jp) :
    uses_correlated_parameters pn m = true := by
  cases pn
  case predicate p input =>
    cases p
    case comparison cond0 ls rs =>
      simp only [try_to_extract_join_predicate] at h
      split at h
      · simp at h
      · cases hside : extract_correlated_side cond0 ls rs with
        | none => rw [hside] at h; simp at h
        | some trip =>
          obtain ⟨pid, cond1, rop⟩ := trip
          rw [hside] at h
          simp only at h
          split at h
          · simp at h
          · cases hlook : parameter_mapping_lookup m pid with
            | none => rw [hlook] at h; simp at h
            | some lop =>
              rcases extract_correlated_side_some hside with hl | hr
              · subst hl
                simp [uses_correlated_parameters, node_expressions,
                  expression_uses_correlated_parameter, hlook]
              · subst hr
                simp [uses_correlated_parameters, node_expressions,
                  expression_uses_correlated_parameter, hlook]
    all_goals simp [try_to_extract_join_predicate] at h
  all_goals simp [try_to_extract_join_predicate] at h

/-- The pullable-predicate finder records at most as many entries as there are
    correlated predicate nodes: it visits a subset of the nodes, and every entry
    comes from a correlated predicate node. -/
theorem find_pullable_le_count (m : List (Nat × Expression)) :
    ∀ (b : Bool) (n : LQP),
      (find_pullable_predicate_nodes_recursive m b n).length ≤
        count_correlated_predicate_nodes m n
  | b, .predicate p i => by
      have ih := find_pullable_le_count m b i
      cases hjp : try_to_extract_join_predicate (.predicate p i) m b with
      | none =>
        by_cases huses : uses_correlated_parameters (.predicate p i) m = true
        · simp [find_pullable_predicate_nodes_recursive, hjp,
            count_correlated_predicate_nodes, huses]
          omega
        · simp at huses
          simp [find_pullable_predicate_nodes_recursive, hjp,
            count_correlated_predicate_nodes, huses]
          exact ih
      | some jp =>
        have huses := try_to_extract_some_uses hjp
        simp [find_pullable_predicate_nodes_recursive, hjp,
          count_correlated_predicate_nodes, huses]
        omega
  | b, .join mode ps l r => by
      have ihl := find_pullable_le_count m b l
      have ihr := find_pullable_le_count m b r
      cases mode <;>
        simp [find_pullable_predicate_nodes_recursive, count_correlated_predicate_nodes] <;>
        omega
  | b, .aggregate g a i => by
      have ih := find_pullable_le_count m true i
      simpa [find_pullable_predicate_nodes_recursive, count_correlated_predicate_nodes]
        using ih
  | b, .projection e i => by
      have ih := find_pullable_le_count m b i
      simpa [find_pullable_predicate_nodes_recursive, count_correlated_predicate_nodes]
        using ih
  | b, .aliasNode e al i => by
      have ih := find_pullable_le_count m b i
      simpa [find_pullable_predicate_nodes_recursive, count_correlated_predicate_nodes]
        using ih
  | b, .sort e d i => by
      have ih := find_pullable_le_count m b i
      simpa [find_pullable_predicate_nodes_recursive, count_correlated_predicate_nodes]
        using ih
  | b, .validate i => by
      have ih := find_pullable_le_count m b i
      simpa [find_pullable_predicate_nodes_recursive, count_correlated_predicate_nodes]
        using ih
  | b, .storedTable tname cols => by
      simp [find_pullable_predicate_nodes_recursive, count_correlated_predicate_nodes]
termination_by b n => n

/-- C5: when the analyzer reports not-blocked with correlated-predicate count c,
    the pullable-predicate finder returns at most c entries (never more), and the
    rewrite declines whenever the number found differs from c. -/
theorem c5_finder_bounded_and_mismatch_declines :
    (∀ (lqp : LQP) (m : List (Nat × Expression)),
        (assess_correlated_parameter_usage lqp m).1 = false →
        (find_pullable_predicate_nodes lqp m).length ≤
          (assess_correlated_parameter_usage lqp m).2) ∧
    (∀ (p : Expression) (cols : List Expression) (lqp : LQP) (params : ParamList)
        (jm : JoinMode) (base : Option BinaryPred),
        extract_input_lqp_info_core p cols = .info lqp params jm base →
        (find_pullable_predicate_nodes lqp (build_parameter_mapping params.toList)).length ≠
          (assess_correlated_parameter_usage lqp (build_parameter_mapping params.toList)).2 →
        apply_to_rewrite_core p cols = .ok none) := by
  constructor
  · intro lqp m h
    obtain ⟨hnb, hcnt⟩ := assess_not_blocked_count lqp m h
    rw [hcnt]
    exact find_pullable_le_count m false lqp
  · intro p cols lqp params jm base hext hne
    unfold apply_to_rewrite_core
    rw [hext]
    simp only
    by_cases h1 : (assess_correlated_parameter_usage lqp
        (build_parameter_mapping params.toList)).1 = true
    · simp [h1]
    · simp [h1, hne]

/-- Witness for C5 at a correlated subquery with one pullable predicate. -/
theorem c5_finder_bounded_and_mismatch_declines_witness :
    (find_pullable_predicate_nodes
        (.predicate (.comparison .equals (.correlatedParameter 0) (.column 4))
          (.storedTable "b" [3, 4]))
        [(0, Expression.column 2)]).length ≤
      (assess_correlated_parameter_usage
        (.predicate (.comparison .equals (.correlatedParameter 0) (.column 4))
          (.storedTable "b" [3, 4]))
        [(0, Expression.column 2)]).2 :=
  c5_finder_bounded_and_mismatch_declines.1
    (.predicate (.comparison .equals (.correlatedParameter 0) (.column 4))
      (.storedTable "b" [3, 4]))
    [(0, Expression.column 2)] (by decide)

/-- The synthesized condition is the original one or its flip. -/
theorem extract_correlated_side_cond {cond0 : CompCond} {l r : Expression} {pid : Nat}
    {cond1 : CompCond} {rop : Expression}
    (h : extract_correlated_side cond0 l r = some (pid, cond1, rop)) :
    cond1 = cond0 ∨ cond1 = flip_predicate_condition cond0 := by
  unfold extract_correlated_side at h
  split at h
  · cases h
    exact Or.inl rfl
  · split at h
    · cases h
      exact Or.inr rfl
    · cases h

/-- Below an aggregate, try_to_extract_join_predicate accepts only equality
    comparisons, and the returned predicate's condition is equality. -/
theorem try_below_aggregate_equals {pn : LQP} {m : List (Nat × Expression)}
    {jp : BinaryPred} (h : try_to_extract_join_predicate pn m true = some jp) :
    jp.cond = CompCond.equals := by
  cases pn
  case predicate p input =>
    cases p
    case comparison cond0 ls rs =>
      simp only [try_to_extract_join_predicate] at h
      split at h
      · simp at h
      · rename_i hcond
        have hc0 : cond0 = CompCond.equals := by
          rcases Classical.em (cond0 = CompCond.equals) with he | he
          · exact he
          · exact absurd (by simp [he]) hcond
        cases hside : extract_correlated_side cond0 ls rs with
        | none => rw [hside] at h; simp at h
        | some trip =>
          obtain ⟨pid, cond1, rop⟩ := trip
          rw [hside] at h
          simp only at h
          split at h
          · simp at h
          · cases hlook : parameter_mapping_lookup m pid with
            | none => rw [hlook] at h; simp at h
            | some lop =>
              rw [hlook] at h
              simp only at h
              cases h
              rcases extract_correlated_side_cond hside with h1 | h1 <;>
                simp [h1, hc0, flip_predicate_condition]
    all_goals simp [try_to_extract_join_predicate] at h
  all_goals simp [try_to_extract_join_predicate] at h

/-- Every pullable predicate found below an aggregate has an equality
    condition. -/
theorem find_pullable_below_aggregate_equals (m : List (Nat × Expression)) :
    ∀ (n : LQP) (e : LQP × BinaryPred),
      e ∈ find_pullable_predicate_nodes_recursive m true n → e.2.cond = CompCond.equals
  | .predicate p i, e => by
      intro hmem
      simp only [find_pullable_predicate_nodes_recursive] at hmem
      cases hjp : try_to_extract_join_predicate (.predicate p i) m true with
      | none =>
        rw [hjp] at hmem
        simp only [List.nil_append] at hmem
        exact find_pullable_below_aggregate_equals m i e hmem
      | some jp =>
        rw [hjp] at hmem
        simp only [List.cons_append, List.nil_append, List.mem_cons] at hmem
        rcases hmem with he | hmem
        · subst he
          exact try_below_aggregate_equals hjp
        · exact find_pullable_below_aggregate_equals m i e hmem
  | .join mode ps l r, e => by
      intro hmem
      cases mode <;> simp only [find_pullable_predicate_nodes_recursive] at hmem
      case inner =>
        rcases List.mem_append.mp hmem with hm | hm
        · exact find_pullable_below_aggregate_equals m l e hm
        · exact find_pullable_below_aggregate_equals m r e hm
      case cross =>
        rcases List.mem_append.mp hmem with hm | hm
        · exact find_pullable_below_aggregate_equals m l e hm
        · exact find_pullable_below_aggregate_equals m r e hm
      case leftOuter => exact find_pullable_below_aggregate_equals m l e hmem
      case rightOuter => exact find_pullable_below_aggregate_equals m r e hmem
      case fullOuter => simp at hmem
      case semi => exact find_pullable_below_aggregate_equals m l e hmem
      case antiNullAsFalse => exact find_pullable_below_aggregate_equals m l e hmem
      case antiNullAsTrue => exact find_pullable_below_aggregate_equals m l e hmem
  | .aggregate g a i, e => by
      intro hmem
      simp only [find_pullable_predicate_nodes_recursive] at hmem
      exact find_pullable_below_aggregate_equals m i e hmem
  | .projection ex i, e => by
      intro hmem
      simp only [find_pullable_predicate_nodes_recursive] at hmem
      exact find_pullable_below_aggregate_equals m i e hmem
  | .aliasNode ex al i, e => by
      intro hmem
      simp only [find_pullable_predicate_nodes_recursive] at hmem
      exact find_pullable_below_aggregate_equals m i e hmem
  | .sort ex d i, e => by
      intro hmem
      simp only [find_pullable_predicate_nodes_recursive] at hmem
      exact find_pullable_below_aggregate_equals m i e hmem
  | .validate i, e => by
      intro hmem
      simp only [find_pullable_predicate_nodes_recursive] at hmem
      exact find_pullable_below_aggregate_equals m i e hmem
  | .storedTable tname cols, e => by
      intro hmem
      simp [find_pullable_predicate_nodes_recursive] at hmem
termination_by n e => n

/-- C6: below an aggregate node, only equality comparisons yield join predicates:
    try_to_extract_join_predicate with is_below_aggregate accepts only equality
    (so every correlated non-equality comparison below an aggregate yields no
    pullable predicate), and every entry the finder records below an aggregate
    node carries an equality condition. -/
theorem c6_below_aggregate_only_equality :
    (∀ (pn : LQP) (m : List (Nat × Expression)) (jp : BinaryPred),
        try_to_extract_join_predicate pn m true = some jp → jp.cond = CompCond.equals) ∧
    (∀ (pn : LQP) (m : List (Nat × Expression)) (p : Expression) (cond : CompCond)
        (l r : Expression) (i : LQP),
        pn = .predicate (.comparison cond l r) i → cond ≠ CompCond.equals →
        try_to_extract_join_predicate pn m true = none) ∧
    (∀ (m : List (Nat × Expression)) (b : Bool) (g a : ExprList) (i : LQP)
        (e : LQP × BinaryPred),
        e ∈ find_pullable_predicate_nodes_recursive m b (.aggregate g a i) →
        e.2.cond = CompCond.equals) := by
  refine ⟨fun pn m jp h => try_below_aggregate_equals h, ?_, ?_⟩
  · intro pn m p cond l r i hpn hne
    subst hpn
    simp [try_to_extract_join_predicate, hne]
  · intro m b g a i e hmem
    simp only [find_pullable_predicate_nodes_recursive] at hmem
    exact find_pullable_below_aggregate_equals m i e hmem

/-- Witness for C6 at a concrete equality predicate below an aggregate. -/
theorem c6_below_aggregate_only_equality_witness :
    (⟨CompCond.equals, Expression.column 2, Expression.column 4⟩ : BinaryPred).cond =
        CompCond.equals ∧
    try_to_extract_join_predicate
        (.predicate (.comparison .lessThan (.correlatedParameter 0) (.column 4))
          (.storedTable "b" [3, 4]))
        [(0, Expression.column 2)] true = none :=
  ⟨c6_below_aggregate_only_equality.1
      (.predicate (.comparison .equals (.correlatedParameter 0) (.column 4))
        (.storedTable "b" [3, 4]))
      [(0, Expression.column 2)]
      ⟨CompCond.equals, Expression.column 2, Expression.column 4⟩ (by decide),
    c6_below_aggregate_only_equality.2.1
      (.predicate (.comparison .lessThan (.correlatedParameter 0) (.column 4))
        (.storedTable "b" [3, 4]))
      [(0, Expression.column 2)] (.comparison .lessThan (.correlatedParameter 0) (.column 4))
      .lessThan (.correlatedParameter 0) (.column 4) (.storedTable "b" [3, 4]) rfl
      (by decide)⟩

/-- Does any node of the plan use a correlated parameter bound in the mapping
    (in any node expression, predicate nodes included)? -/
def contains_correlated_usage (m : List (Nat × Expression)) : LQP → Bool
  | .predicate p i =>
      uses_correlated_parameters (.predicate p i) m || contains_correlated_usage m i
  | .join mode ps l r =>
      uses_correlated_parameters (.join mode ps l r) m || contains_correlated_usage m l ||
        contains_correlated_usage m r
  | .aggregate g a i =>
      uses_correlated_parameters (.aggregate g a i) m || contains_correlated_usage m i
  | .projection e i =>
      uses_correlated_parameters (.projection e i) m || contains_correlated_usage m i
  | .aliasNode e al i =>
      uses_correlated_parameters (.aliasNode e al i) m || contains_correlated_usage m i
  | .sort e d i =>
      uses_correlated_parameters (.sort e d i) m || contains_correlated_usage m i
  | .validate i =>
      uses_correlated_parameters (.validate i) m || contains_correlated_usage m i
  | .storedTable tname cols =>
      uses_correlated_parameters (.storedTable tname cols) m
termination_by structural n => n

/-- Without any correlated usage there is no blocking usage. -/
theorem no_usage_no_blocking (m : List (Nat × Expression)) :
    ∀ n : LQP, contains_correlated_usage m n = false → contains_blocking_usage m n = false
  | .predicate p i => by
      intro h
      simp only [contains_correlated_usage, Bool.or_eq_false_iff] at h
      simpa [contains_blocking_usage] using no_usage_no_blocking m i h.2
  | .join mode ps l r => by
      intro h
      simp only [contains_correlated_usage, Bool.or_eq_false_iff] at h
      simp [contains_blocking_usage, h.1.1, no_usage_no_blocking m l h.1.2,
        no_usage_no_blocking m r h.2]
  | .aggregate g a i => by
      intro h
      simp only [contains_correlated_usage, Bool.or_eq_false_iff] at h
      simp [contains_blocking_usage, h.1, no_usage_no_blocking m i h.2]
  | .projection e i => by
      intro h
      simp only [contains_correlated_usage, Bool.or_eq_false_iff] at h
      simp [contains_blocking_usage, h.1, no_usage_no_blocking m i h.2]
  | .aliasNode e al i => by
      intro h
      simp only [contains_correlated_usage, Bool.or_eq_false_iff] at h
      simp [contains_blocking_usage, h.1, no_usage_no_blocking m i h.2]
  | .sort e d i => by
      intro h
      simp only [contains_correlated_usage, Bool.or_eq_false_iff] at h
      simp [contains_blocking_usage, h.1, no_usage_no_blocking m i h.2]
  | .validate i => by
      intro h
      simp only [contains_correlated_usage, Bool.or_eq_false_iff] at h
      simp [contains_blocking_usage, h.1, no_usage_no_blocking m i h.2]
  | .storedTable tname cols => by
      intro h
      simpa [contains_blocking_usage] using h
termination_by n => n

/-- Without any correlated usage the analyzer counts zero correlated
    predicates. -/
theorem no_usage_count_zero (m : List (Nat × Expression)) :
    ∀ n : LQP, contains_correlated_usage m n = false →
      count_correlated_predicate_nodes m n = 0
  | .predicate p i => by
      intro h
      simp only [contains_correlated_usage, Bool.or_eq_false_iff] at h
      simp [count_correlated_predicate_nodes, h.1, no_usage_count_zero m i h.2]
  | .join mode ps l r => by
      intro h
      simp only [contains_correlated_usage, Bool.or_eq_false_iff] at h
      simp [count_correlated_predicate_nodes, no_usage_count_zero m l h.1.2,
        no_usage_count_zero m r h.2]
  | .aggregate g a i => by
      intro h
      simp only [contains_correlated_usage, Bool.or_eq_false_iff] at h
      simp [count_correlated_predicate_nodes, no_usage_count_zero m i h.2]
  | .projection e i => by
      intro h
      simp only [contains_correlated_usage, Bool.or_eq_false_iff] at h
      simp [count_correlated_predicate_nodes, no_usage_count_zero m i h.2]
  | .aliasNode e al i => by
      intro h
      simp only [contains_correlated_usage, Bool.or_eq_false_iff] at h
      simp [count_correlated_predicate_nodes, no_usage_count_zero m i h.2]
  | .sort e d i => by
      intro h
      simp only [contains_correlated_usage, Bool.or_eq_false_iff] at h
      simp [count_correlated_predicate_nodes, no_usage_count_zero m i h.2]
  | .validate i => by
      intro h
      simp only [contains_correlated_usage, Bool.or_eq_false_iff] at h
      simp [count_correlated_predicate_nodes, no_usage_count_zero m i h.2]
  | .storedTable tname cols => by
      intro h
      simp [count_correlated_predicate_nodes]
termination_by n => n

/-- Without any correlated usage the pullable-predicate finder records
    nothing. -/
theorem no_usage_find_nil (m : List (Nat × Expression)) :
    ∀ (b : Bool) (n : LQP), contains_correlated_usage m n = false →
      find_pullable_predicate_nodes_recursive m b n = []
  | b, .predicate p i => by
      intro h
      simp only [contains_correlated_usage, Bool.or_eq_false_iff] at h
      cases hjp : try_to_extract_join_predicate (.predicate p i) m b with
      | none =>
        simp [find_pullable_predicate_nodes_recursive, hjp, no_usage_find_nil m b i h.2]
      | some jp =>
        have := try_to_extract_some_uses hjp
        rw [h.1] at this
        cases this
  | b, .join mode ps l r => by
      intro h
      simp only [contains_correlated_usage, Bool.or_eq_false_iff] at h
      cases mode <;>
        simp [find_pullable_predicate_nodes_recursive, no_usage_find_nil m b l h.1.2,
          no_usage_find_nil m b r h.2]
  | b, .aggregate g a i => by
      intro h
      simp only [contains_correlated_usage, Bool.or_eq_false_iff] at h
      simp [find_pullable_predicate_nodes_recursive, no_usage_find_nil m true i h.2]
  | b, .projection e i => by
      intro h
      simp only [contains_correlated_usage, Bool.or_eq_false_iff] at h
      simp [find_pullable_predicate_nodes_recursive, no_usage_find_nil m b i h.2]
  | b, .aliasNode e al i => by
      intro h
      simp only [contains_correlated_usage, Bool.or_eq_false_iff] at h
      simp [find_pullable_predicate_nodes_recursive, no_usage_find_nil m b i h.2]
  | b, .sort e d i => by
      intro h
      simp only [contains_correlated_usage, Bool.or_eq_false_iff] at h
      simp [find_pullable_predicate_nodes_recursive, no_usage_find_nil m b i h.2]
  | b, .validate i => by
      intro h
      simp only [contains_correlated_usage, Bool.or_eq_false_iff] at h
      simp [find_pullable_predicate_nodes_recursive, no_usage_find_nil m b i h.2]
  | b, .storedTable tname cols => by
      intro h
      simp [find_pullable_predicate_nodes_recursive]
termination_by b n => n

/-- When the rewrite decision declines, apply_to keeps the predicate node and
    applies the rule to its input. -/
theorem apply_to_predicate_decline {p : Expression} {inp : LQP}
    (h : apply_to_rewrite_core p (column_expressions inp) = .ok none) :
    apply_to (.predicate p inp) = (apply_to inp).map (fun i2 => .predicate p i2) := by
  unfold apply_to
  split
  · rename_i heq
    rw [h] at heq
    cases heq
  · rename_i jm ps ad heq
    rw [h] at heq
    cases heq
  · rw [← apply_to.eq_def]

/-- C10: at a correlated Exists whose subquery plan never uses any bound
    parameter id in any node expression, the analyzer is not blocked and counts
    zero correlated predicates, the finder returns nothing, the assembled
    join-predicate list is empty, so the rewrite declines and apply_to keeps the
    predicate node, descending into its input. -/
theorem c10_unused_parameters_exists_declines :
    ∀ (neg : Bool) (L : LQP) (ps : ParamList) (inp : LQP),
      ps ≠ ParamList.nil →
      contains_correlated_usage (build_parameter_mapping ps.toList) L = false →
      assess_correlated_parameter_usage L (build_parameter_mapping ps.toList) = (false, 0) ∧
      find_pullable_predicate_nodes L (build_parameter_mapping ps.toList) = [] ∧
      assemble_join_predicates none [] = ([], false) ∧
      apply_to_rewrite_core (.existsExpr neg (.lqpSubquery L ps))
        (column_expressions inp) = .ok none ∧
      apply_to (.predicate (.existsExpr neg (.lqpSubquery L ps)) inp) =
        (apply_to inp).map
          (fun i2 => .predicate (.existsExpr neg (.lqpSubquery L ps)) i2) := by
  intro neg L ps inp hps husage
  have hblock := no_usage_no_blocking (build_parameter_mapping ps.toList) L husage
  have hcnt := no_usage_count_zero (build_parameter_mapping ps.toList) L husage
  have hassess : assess_correlated_parameter_usage L (build_parameter_mapping ps.toList) =
      (false, 0) := by
    unfold assess_correlated_parameter_usage
    rw [assess_visit_no_blocker (build_parameter_mapping ps.toList) L 0 hblock]
    simp [hcnt]
  have hfind : find_pullable_predicate_nodes L (build_parameter_mapping ps.toList) = [] := by
    unfold find_pullable_predicate_nodes
    exact no_usage_find_nil (build_parameter_mapping ps.toList) false L husage
  have hcore : apply_to_rewrite_core (.existsExpr neg (.lqpSubquery L ps))
      (column_expressions inp) = .ok none := by
    have hext : extract_input_lqp_info_core (.existsExpr neg (.lqpSubquery L ps))
        (column_expressions inp) =
        .info L ps (if neg then .antiNullAsFalse else .semi) none := by
      simp [extract_input_lqp_info_core, hps]
    unfold apply_to_rewrite_core
    rw [hext]
    simp only
    simp [hassess, hfind, assemble_join_predicates]
  exact ⟨hassess, hfind, rfl, hcore, apply_to_predicate_decline hcore⟩

/-- Witness for C10 at a concrete correlated NOT EXISTS whose subquery never uses
    the bound parameter. -/
theorem c10_unused_parameters_exists_declines_witness :
    assess_correlated_parameter_usage (.storedTable "b" [3, 4])
        (build_parameter_mapping (ParamList.cons 0 (.column 2) ParamList.nil).toList) =
      (false, 0) ∧
    find_pullable_predicate_nodes (.storedTable "b" [3, 4])
        (build_parameter_mapping (ParamList.cons 0 (.column 2) ParamList.nil).toList) = [] ∧
    assemble_join_predicates none [] = ([], false) ∧
    apply_to_rewrite_core
        (.existsExpr true (.lqpSubquery (.storedTable "b" [3, 4])
          (ParamList.cons 0 (.column 2) ParamList.nil)))
        (column_expressions (.storedTable "a" [1, 2])) = .ok none ∧
    apply_to
        (.predicate
          (.existsExpr true (.lqpSubquery (.storedTable "b" [3, 4])
            (ParamList.cons 0 (.column 2) ParamList.nil)))
          (.storedTable "a" [1, 2])) =
      (apply_to (.storedTable "a" [1, 2])).map
        (fun i2 =>
          .predicate
            (.existsExpr true (.lqpSubquery (.storedTable "b" [3, 4])
              (ParamList.cons 0 (.column 2) ParamList.nil))) i2) :=
  c10_unused_parameters_exists_declines true (.storedTable "b" [3, 4])
    (ParamList.cons 0 (.column 2) ParamList.nil) (.storedTable "a" [1, 2])
    (by decide) (by decide)

/-- extract_finish reports the join mode it was given. -/
theorem extract_finish_info_mode {cols : List Expression} {cond : CompCond}
    {mode : JoinMode} {L : LQP} {ps : ParamList} {v : Expression} {lqp : LQP}
    {params : ParamList} {jm : JoinMode} {base : Option BinaryPred}
    (h : extract_finish cols cond mode L ps v = .info lqp params jm base) : jm = mode := by
  unfold extract_finish at h
  split at h
  · cases h
  · split at h
    · cases h
      rfl
    · cases h

/-- The classifier only ever reports the semi, anti-null-as-false or
    anti-null-as-true join modes. -/
theorem extract_core_info_mode {p : Expression} {cols : List Expression} {lqp : LQP}
    {params : ParamList} {jm : JoinMode} {base : Option BinaryPred}
    (h : extract_input_lqp_info_core p cols = .info lqp params jm base) :
    jm = .semi ∨ jm = .antiNullAsFalse ∨ jm = .antiNullAsTrue := by
  unfold extract_input_lqp_info_core at h
  repeat' split at h
  all_goals first
    | (have hm := extract_finish_info_mode h
       subst hm
       first
         | (split <;> simp)
         | simp)
    | (cases h
       first
         | (split <;> simp)
         | simp)
    | simp at h

/-- A successful rewrite decision comes from a successful classification with the
    same join mode. -/
theorem apply_to_rewrite_core_some_extract {p : Expression} {cols : List Expression}
    {jm : JoinMode} {ps : List Expression} {ad : LQP}
    (h : apply_to_rewrite_core p cols = .ok (some (jm, ps, ad))) :
    ∃ lqp params base, extract_input_lqp_info_core p cols = .info lqp params jm base := by
  unfold apply_to_rewrite_core at h
  split at h
  · cases h
  · cases h
  · rename_i lqp params jm2 base hext
    simp only at h
    repeat' split at h
    all_goals first
      | (cases h; exact ⟨lqp, params, base, hext⟩)
      | simp at h

/-- The rewrite decision at a predicate node, unfolded on a successful
    decision. -/
theorem apply_to_predicate_rewrite {p : Expression} {inp : LQP} {jm : JoinMode}
    {ps : List Expression} {ad : LQP}
    (h : apply_to_rewrite_core p (column_expressions inp) = .ok (some (jm, ps, ad))) :
    apply_to (.predicate p inp) =
      (match apply_to inp, apply_to ad with
       | .ok l2, .ok r2 => .ok (.join jm (ExprList.ofList ps) l2 r2)
       | .error _, _ => .error ()
       | _, .error _ => .error ()) := by
  unfold apply_to
  split
  · rename_i heq
    rw [h] at heq
    cases heq
  · rename_i jm2 ps2 ad2 heq
    rw [h] at heq
    cases heq
    simp only [← apply_to.eq_def]
  · rename_i heq
    rw [h] at heq
    cases heq

/-- apply_to preserves the column expressions of the plan: a kept node keeps its
    own expressions and its inputs' columns, and a replacement semi/anti join
    produces exactly the left (outer) columns, which are those of the replaced
    predicate node. -/
theorem apply_to_preserves_columns :
    ∀ (k : Nat) (n q : LQP), size_lqp n ≤ k → apply_to n = .ok q →
      column_expressions q = column_expressions n := by
  intro k
  induction k using Nat.strong_induction_on with
  | _ k ih =>
    intro n q hs happ
    cases n with
    | predicate p inp =>
      simp only [size_lqp] at hs
      cases hcore : apply_to_rewrite_core p (column_expressions inp) with
      | error e =>
        rw [apply_to_predicate_error hcore] at happ
        cases happ
      | ok o =>
        cases o with
        | none =>
          rw [apply_to_predicate_decline hcore] at happ
          cases hinp : apply_to inp with
          | error e => rw [hinp] at happ; simp [Except.map] at happ
          | ok i2 =>
            rw [hinp] at happ
            simp [Except.map] at happ
            subst happ
            have hcols := ih (size_lqp inp) (by omega) inp i2 (le_refl _) hinp
            simpa [column_expressions] using hcols
        | some trip =>
          obtain ⟨jm, ps, ad⟩ := trip
          rw [apply_to_predicate_rewrite hcore] at happ
          cases hinp : apply_to inp with
          | error e =>
            cases had : apply_to ad with
            | error e2 => rw [hinp, had] at happ; simp at happ
            | ok r2 => rw [hinp, had] at happ; simp at happ
          | ok l2 =>
            cases had : apply_to ad with
            | error e2 => rw [hinp, had] at happ; simp at happ
            | ok r2 =>
              rw [hinp, had] at happ
              simp at happ
              subst happ
              obtain ⟨lqp, params, base, hext⟩ := apply_to_rewrite_core_some_extract hcore
              have hcols := ih (size_lqp inp) (by omega) inp l2 (le_refl _) hinp
              rcases extract_core_info_mode hext with hm | hm | hm <;>
                (subst hm; simpa [column_expressions] using hcols)
    | join mo ps a b =>
      simp only [size_lqp] at hs
      simp only [apply_to] at happ
      cases ha : apply_to a with
      | error e =>
        cases hb : apply_to b with
        | error e2 => rw [ha, hb] at happ; simp at happ
        | ok b2 => rw [ha, hb] at happ; simp at happ
      | ok a2 =>
        cases hb : apply_to b with
        | error e2 => rw [ha, hb] at happ; simp at happ
        | ok b2 =>
          rw [ha, hb] at happ
          simp at happ
          subst happ
          have hca := ih (size_lqp a) (by omega) a a2 (le_refl _) ha
          have hcb := ih (size_lqp b) (by omega) b b2 (le_refl _) hb
          cases mo <;> simp [column_expressions, hca, hcb]
    | aggregate g ag i =>
      simp only [apply_to] at happ
      cases hi : apply_to i with
      | error e => rw [hi] at happ; simp [Except.map] at happ
      | ok i2 =>
        rw [hi] at happ
        simp [Except.map] at happ
        subst happ
        simp [column_expressions]
    | projection e i =>
      simp only [apply_to] at happ
      cases hi : apply_to i with
      | error e2 => rw [hi] at happ; simp [Except.map] at happ
      | ok i2 =>
        rw [hi] at happ
        simp [Except.map] at happ
        subst happ
        simp [column_expressions]
    | aliasNode e al i =>
      simp only [apply_to] at happ
      cases hi : apply_to i with
      | error e2 => rw [hi] at happ; simp [Except.map] at happ
      | ok i2 =>
        rw [hi] at happ
        simp [Except.map] at happ
        subst happ
        simp [column_expressions]
    | sort e d i =>
      simp only [size_lqp] at hs
      simp only [apply_to] at happ
      cases hi : apply_to i with
      | error e2 => rw [hi] at happ; simp [Except.map] at happ
      | ok i2 =>
        rw [hi] at happ
        simp [Except.map] at happ
        subst happ
        have hci := ih (size_lqp i) (by omega) i i2 (le_refl _) hi
        simpa [column_expressions] using hci
    | validate i =>
      simp only [size_lqp] at hs
      simp only [apply_to] at happ
      cases hi : apply_to i with
      | error e2 => rw [hi] at happ; simp [Except.map] at happ
      | ok i2 =>
        rw [hi] at happ
        simp [Except.map] at happ
        subst happ
        have hci := ih (size_lqp i) (by omega) i i2 (le_refl _) hi
        simpa [column_expressions] using hci
    | storedTable tname cols =>
      simp only [apply_to] at happ
      cases happ
      rfl

/-- Size-bounded idempotence: a successful application of the rule yields a plan
    on which a second application succeeds and changes nothing. Declined
    predicate nodes decline again because their input keeps the same output
    columns; rewritten nodes become joins, which the rule never rewrites. -/
theorem apply_to_idempotent_aux :
    ∀ (k : Nat) (n q : LQP), size_lqp n ≤ k → apply_to n = .ok q → apply_to q = .ok q := by
  intro k
  induction k using Nat.strong_induction_on with
  | _ k ih =>
    intro n q hs happ
    cases n with
    | predicate p inp =>
      simp only [size_lqp] at hs
      cases hcore : apply_to_rewrite_core p (column_expressions inp) with
      | error e =>
        rw [apply_to_predicate_error hcore] at happ
        cases happ
      | ok o =>
        cases o with
        | none =>
          rw [apply_to_predicate_decline hcore] at happ
          cases hinp : apply_to inp with
          | error e => rw [hinp] at happ; simp [Except.map] at happ
          | ok i2 =>
            rw [hinp] at happ
            simp [Except.map] at happ
            subst happ
            have hid := ih (size_lqp inp) (by omega) inp i2 (le_refl _) hinp
            have hcols := apply_to_preserves_columns (size_lqp inp) inp i2 (le_refl _) hinp
            have hcore2 : apply_to_rewrite_core p (column_expressions i2) = .ok none := by
              rw [hcols]; exact hcore
            rw [apply_to_predicate_decline hcore2, hid]
            rfl
        | some trip =>
          obtain ⟨jm, ps, ad⟩ := trip
          rw [apply_to_predicate_rewrite hcore] at happ
          have hsz := apply_to_rewrite_core_size hcore
          cases hinp : apply_to inp with
          | error e =>
            cases had : apply_to ad with
            | error e2 => rw [hinp, had] at happ; simp at happ
            | ok r2 => rw [hinp, had] at happ; simp at happ
          | ok l2 =>
            cases had : apply_to ad with
            | error e2 => rw [hinp, had] at happ; simp at happ
            | ok r2 =>
              rw [hinp, had] at happ
              simp at happ
              subst happ
              have hidl := ih (size_lqp inp) (by omega) inp l2 (le_refl _) hinp
              have hidr := ih (size_lqp ad) (by omega) ad r2 (le_refl _) had
              simp only [apply_to]
              rw [hidl, hidr]
    | join mo ps a b =>
      simp only [size_lqp] at hs
      simp only [apply_to] at happ
      cases ha : apply_to a with
      | error e =>
        cases hb : apply_to b with
        | error e2 => rw [ha, hb] at happ; simp at happ
        | ok b2 => rw [ha, hb] at happ; simp at happ
      | ok a2 =>
        cases hb : apply_to b with
        | error e2 => rw [ha, hb] at happ; simp at happ
        | ok b2 =>
          rw [ha, hb] at happ
          simp at happ
          subst happ
          have hia := ih (size_lqp a) (by omega) a a2 (le_refl _) ha
          have hib := ih (size_lqp b) (by omega) b b2 (le_refl _) hb
          simp only [apply_to]
          rw [hia, hib]
    | aggregate g ag i =>
      simp only [size_lqp] at hs
      simp only [apply_to] at happ
      cases hi : apply_to i with
      | error e => rw [hi] at happ; simp [Except.map] at happ
      | ok i2 =>
        rw [hi] at happ
        simp [Except.map] at happ
        subst happ
        have hii := ih (size_lqp i) (by omega) i i2 (le_refl _) hi
        simp only [apply_to]
        rw [hii]
        rfl
    | projection e i =>
      simp only [size_lqp] at hs
      simp only [apply_to] at happ
      cases hi : apply_to i with
      | error e2 => rw [hi] at happ; simp [Except.map] at happ
      | ok i2 =>
        rw [hi] at happ
        simp [Except.map] at happ
        subst happ
        have hii := ih (size_lqp i) (by omega) i i2 (le_refl _) hi
        simp only [apply_to]
        rw [hii]
        rfl
    | aliasNode e al i =>
      simp only [size_lqp] at hs
      simp only [apply_to] at happ
      cases hi : apply_to i with
      | error e2 => rw [hi] at happ; simp [Except.map] at happ
      | ok i2 =>
        rw [hi] at happ
        simp [Except.map] at happ
        subst happ
        have hii := ih (size_lqp i) (by omega) i i2 (le_refl _) hi
        simp only [apply_to]
        rw [hii]
        rfl
    | sort e d i =>
      simp only [size_lqp] at hs
      simp only [apply_to] at happ
      cases hi : apply_to i with
      | error e2 => rw [hi] at happ; simp [Except.map] at happ
      | ok i2 =>
        rw [hi] at happ
        simp [Except.map] at happ
        subst happ
        have hii := ih (size_lqp i) (by omega) i i2 (le_refl _) hi
        simp only [apply_to]
        rw [hii]
        rfl
    | validate i =>
      simp only [size_lqp] at hs
      simp only [apply_to] at happ
      cases hi : apply_to i with
      | error e2 => rw [hi] at happ; simp [Except.map] at happ
      | ok i2 =>
        rw [hi] at happ
        simp [Except.map] at happ
        subst happ
        have hii := ih (size_lqp i) (by omega) i i2 (le_refl _) hi
        simp only [apply_to]
        rw [hii]
        rfl
    | storedTable tname cols =>
      simp only [apply_to] at happ
      cases happ
      simp only [apply_to]

/-- C9: the rule is idempotent. For every plan P that the rule rewrites
    successfully into Q, applying the rule to Q yields Q itself, structurally
    identical on every node; in particular a second application to a plan the
    first application did not change leaves it identical. -/
theorem c9_rule_is_idempotent (P Q : LQP) (h : apply_to P = .ok Q) :
    apply_to Q = .ok Q :=
  apply_to_idempotent_aux (size_lqp P) P Q (le_refl _) h

/-- Witness for C9 on the uncorrelated-IN scenario: the predicate node is
    rewritten into a semi join, and a second application of the rule maps that
    join to itself. -/
theorem c9_rule_is_idempotent_witness :
    apply_to
        (.predicate (.inExpr false (.column 1)
          (.lqpSubquery (.projection (.cons (.column 3) .nil) (.storedTable "b" [3, 4])) .nil))
          (.storedTable "a" [1, 2])) =
      .ok (.join .semi
        (ExprList.ofList [.comparison .equals (.column 1) (.column 3)])
        (.storedTable "a" [1, 2])
        (.projection (.cons (.column 3) .nil) (.storedTable "b" [3, 4]))) ∧
    apply_to
        (.join .semi
          (ExprList.ofList [.comparison .equals (.column 1) (.column 3)])
          (.storedTable "a" [1, 2])
          (.projection (.cons (.column 3) .nil) (.storedTable "b" [3, 4]))) =
      .ok (.join .semi
        (ExprList.ofList [.comparison .equals (.column 1) (.column 3)])
        (.storedTable "a" [1, 2])
        (.projection (.cons (.column 3) .nil) (.storedTable "b" [3, 4]))) := by
  have h :
      apply_to
          (.predicate (.inExpr false (.column 1)
            (.lqpSubquery (.projection (.cons (.column 3) .nil) (.storedTable "b" [3, 4])) .nil))
            (.storedTable "a" [1, 2])) =
        .ok (.join .semi
          (ExprList.ofList [.comparison .equals (.column 1) (.column 3)])
          (.storedTable "a" [1, 2])
          (.projection (.cons (.column 3) .nil) (.storedTable "b" [3, 4]))) := by
    rw [@apply_to_predicate_rewrite
      (.inExpr false (.column 1)
        (.lqpSubquery (.projection (.cons (.column 3) .nil) (.storedTable "b" [3, 4])) .nil))
      (.storedTable "a" [1, 2]) .semi
      [.comparison .equals (.column 1) (.column 3)]
      (.projection (.cons (.column 3) .nil) (.storedTable "b" [3, 4]))
      (by decide)]
    simp only [apply_to]
    rfl
  exact ⟨h, c9_rule_is_idempotent _ _ h⟩
